import Mathlib

/-!
Shallow embedding of the Concordium NFT contract (`src/nft`) of this
repository, together with theorems settling the specification claims.

The embedding translates the Rust sources:

* `src/nft/src/state.rs`  — contract state and its primitive operations
  (`State::mint`, `State::transfer`, `State::is_operator`,
  `State::add_operator`, `State::remove_operator`, `State::set_minter`,
  `State::set_implementors`, `State::init`);
* `src/nft/src/mint.rs`   — the `mint` entrypoint (`contract_mint`);
* `src/nft/src/cis2.rs`   — the `transfer`, `updateOperator`,
  `setImplementors` entrypoints;
* `src/nft/src/setters.rs` — the `setMinter` entrypoint;
* `src/nft/src/init.rs`   — contract initialisation;
* `src/nft/src/events.rs` — the tagged byte codec for `ContractEvent`.

Modelling conventions:

* `StateSet` is a list kept duplicate-free by construction of its insert
  operation; `StateMap` keyed by addresses or token ids is a total function
  into the record/`Option` payload, with the empty record (resp. `none`) as
  the default.  This is observationally equal to the Rust finite maps for
  every operation the contract performs: `get(..).unwrap_or(..)` treats an
  absent record exactly like the default, `entry(..).or_insert_with(empty)`
  materialises the default, and `and_modify` on an absent key is a no-op,
  which equals modifying the default empty record.
* Machine integers (`u8`, `u32`, `u64`) are `Nat`; the single arithmetic
  operation that can overflow, the `u32` mint counter increment
  `self.counter += 1`, is modelled with an explicit `% 2 ^ 32`
  (release-profile wrapping semantics).
* Fallible Rust code returning `Result` becomes `Except`.  A receive call
  on the Concordium host commits its state and log only on `Ok`; a failing
  call is rolled back wholesale by the host.  `stateAfter` packages that
  transactional semantics.
* The event logger cannot run out of space in the model (the `LogFull`
  resource limit is a host condition, not contract logic), and the CIS-2
  receive hook invoked for contract receivers is an external oracle that
  succeeds or fails without re-entering the contract, following the
  specification's single-threaded, non-reentrant call model.
-/

namespace NFT

/-- `concordium_std::Address`: an account address (32 raw bytes, modelled as
a `Nat`) or a contract address (index and subindex). -/
inductive Address where
  | account : Nat → Address
  | contract : Nat → Nat → Address
deriving DecidableEq, Repr

/-- `AddressState` from `state.rs`: the per-address record of owned tokens
and enabled operators.  Both fields are `StateSet`s, modelled as
duplicate-free lists. -/
structure AddressState where
  owned_tokens : List Nat
  operators : List Address
deriving DecidableEq, Repr

/-- `AddressState::empty`. -/
def AddressState.empty : AddressState :=
  { owned_tokens := [], operators := [] }

/-- `CustomContractError` from `error.rs`. -/
inductive CustomContractError where
  | ParseParams
  | LogFull
  | LogMalformed
  | TokenIdAlreadyExists
  | InvokeContractError
  | MintingNotStarted
  | MintDeadlineReached
  | MaxTotalSupplyReached
  | ArraysNotSameLength
  | Cis2ClientError
  | InvalidAddress
deriving DecidableEq, Repr

/-- `ContractError = Cis2Error<CustomContractError>` from `error.rs`:
the CIS-2 error kinds plus the contract's custom errors. -/
inductive ContractError where
  | InvalidTokenId
  | InsufficientFunds
  | Unauthorized
  | Custom (e : CustomContractError)
deriving DecidableEq, Repr

/-- Insert into a `StateSet`, returning whether the element was new together
with the updated set (`StateSet::insert`). -/
def sinsert {α : Type} [DecidableEq α] (l : List α) (a : α) : Bool × List α :=
  if a ∈ l then (false, l) else (true, l ++ [a])

/-- Remove from a `StateSet` (`StateSet::remove`); on a duplicate-free list
this removes exactly the element if present. -/
def sremove {α : Type} [DecidableEq α] (l : List α) (a : α) : List α :=
  l.filter (fun x => x ≠ a)

/-- Point update of a total-function map (`StateMap::insert` /
`entry(..).or_insert_with(..)` followed by a record mutation). -/
def mapUpdate {β : Type} (f : Address → β) (k : Address) (v : β) :
    Address → β :=
  fun a => if a = k then v else f a

/-- The contract state (`State` in `state.rs`). -/
structure State where
  name : String
  symbol : String
  /-- `address_state : StateMap<Address, AddressState>`, total with default
  `AddressState.empty`. -/
  address_state : Address → AddressState
  /-- `all_tokens : StateSet<ContractTokenId>` (token ids are `u32`). -/
  all_tokens : List Nat
  /-- `token_uris : StateMap<ContractTokenId, String>`. -/
  token_uris : Nat → Option String
  /-- `implementors : StateMap<StandardIdentifierOwned, Vec<ContractAddress>>`. -/
  implementors : String → Option (List (Nat × Nat))
  /-- `minter : AccountAddress`. -/
  minter : Nat
  /-- `counter : MintCountTokenID` (`u32`). -/
  counter : Nat
  /-- `mint_count : StateMap<ContractTokenId, MintCountTokenID>`. -/
  mint_count : Nat → Option Nat
  /-- `mint_start : u64` (Unix milliseconds). -/
  mint_start : Nat
  /-- `mint_deadline : u64` (Unix milliseconds). -/
  mint_deadline : Nat
  /-- `max_total_supply : u32`. -/
  max_total_supply : Nat

/-- `InitParams` from `init.rs`. -/
structure InitParams where
  name : String
  symbol : String
  contract_uri : String
  minter : Nat
  mint_start : Nat
  mint_deadline : Nat
  max_total_supply : Nat

/-- `State::init`: the empty ledger with the given settings. -/
def State.init (p : InitParams) : State where
  name := p.name
  symbol := p.symbol
  address_state := fun _ => AddressState.empty
  all_tokens := []
  token_uris := fun _ => none
  implementors := fun _ => none
  minter := p.minter
  counter := 0
  mint_count := fun _ => none
  mint_start := p.mint_start
  mint_deadline := p.mint_deadline
  max_total_supply := p.max_total_supply

/-- `State::mint` from `state.rs`.  Mirrors the source exactly: the
short-circuiting `ensure!(all_tokens.insert(token) &&
token_uris.insert(token, uri).is_none(), TokenIdAlreadyExists)`, then the
wrapping `u32` counter increment, the `count <= max_total_supply` supply-cap
check, the `mint_count` insertion, and the insertion of the token into the
owner's `owned_tokens` (creating the owner's record if absent). -/
def State.mint (s : State) (token : Nat) (owner : Address) (uri : String) :
    Except ContractError (State × Nat) :=
  if token ∈ s.all_tokens then
    .error (.Custom .TokenIdAlreadyExists)
  else if (s.token_uris token).isSome then
    .error (.Custom .TokenIdAlreadyExists)
  else
    let count := (s.counter + 1) % 2 ^ 32
    if s.max_total_supply < count then
      .error (.Custom .MaxTotalSupplyReached)
    else
      let rec0 := s.address_state owner
      let rec1 := { rec0 with owned_tokens := (sinsert rec0.owned_tokens token).2 }
      .ok ({ s with
              all_tokens := s.all_tokens ++ [token]
              token_uris := fun t => if t = token then some uri else s.token_uris t
              counter := count
              mint_count := fun t => if t = token then some count else s.mint_count t
              address_state := mapUpdate s.address_state owner rec1 },
           count)

/-- `State::contains_token`. -/
def State.contains_token (s : State) (token : Nat) : Bool :=
  token ∈ s.all_tokens

/-- `State::is_operator`: whether `addr` is an enabled operator of `owner`. -/
def State.is_operator (s : State) (addr owner : Address) : Bool :=
  addr ∈ (s.address_state owner).operators

/-- The state produced by the mutation phase of `State::transfer`: remove
the token from `src`'s `owned_tokens`, then insert it into `dst`'s
(re-reading `dst`'s record after the removal, exactly as the Rust borrows
sequence the two halves). -/
def transferResult (s : State) (token : Nat) (src dst : Address) : State :=
  let fs := s.address_state src
  let fs1 := { fs with owned_tokens := sremove fs.owned_tokens token }
  let s1 := { s with address_state := mapUpdate s.address_state src fs1 }
  let ts := s1.address_state dst
  let ts1 := { ts with owned_tokens := (sinsert ts.owned_tokens token).2 }
  { s1 with address_state := mapUpdate s1.address_state dst ts1 }

/-- `State::transfer` from `state.rs`: token-existence check, the zero-amount
early return, the `amount == 1` NFT check, removal from `from`'s
`owned_tokens` (`InsufficientFunds` when `from` does not hold the token),
then insertion into `to`'s `owned_tokens`. -/
def State.transfer (s : State) (token amount : Nat) (src dst : Address) :
    Except ContractError State :=
  if token ∉ s.all_tokens then
    .error .InvalidTokenId
  else if amount = 0 then
    .ok s
  else if amount ≠ 1 then
    .error .InsufficientFunds
  else if token ∉ (s.address_state src).owned_tokens then
    .error .InsufficientFunds
  else
    .ok (transferResult s token src dst)

/-- `State::add_operator`: create the owner's record if absent and insert
the operator (idempotent set insert). -/
def State.add_operator (s : State) (owner op : Address) : State :=
  let rec0 := s.address_state owner
  let rec1 := { rec0 with operators := (sinsert rec0.operators op).2 }
  { s with address_state := mapUpdate s.address_state owner rec1 }

/-- `State::remove_operator`: `and_modify` removes the operator from an
existing record and does nothing for an absent owner, which coincides with
removing from the default empty record. -/
def State.remove_operator (s : State) (owner op : Address) : State :=
  let rec0 := s.address_state owner
  let rec1 := { rec0 with operators := sremove rec0.operators op }
  { s with address_state := mapUpdate s.address_state owner rec1 }

/-- `State::set_minter`. -/
def State.set_minter (s : State) (m : Nat) : State :=
  { s with minter := m }

/-- `State::set_implementors`: unconditional overwrite for the standard. -/
def State.set_implementors (s : State) (id : String)
    (impls : List (Nat × Nat)) : State :=
  { s with implementors := fun i => if i = id then some impls else s.implementors i }

/-! ## Entrypoints

The receive context supplies the caller identity, the instance owner and the
block time; parameters arrive already decoded (wire-format parsing is host
scaffolding outside the core). -/

/-- The parts of `ReceiveContext` the contract reads: `ctx.sender()`,
`ctx.owner()` and `ctx.metadata().block_time().timestamp_millis()`. -/
structure Ctx where
  sender : Address
  owner : Nat
  block_time : Nat

/-- `Receiver` from `concordium_cis2`: the receiving side of a transfer,
either an account or a contract with a receive-hook entrypoint name. -/
inductive Receiver where
  | account : Nat → Receiver
  | contract : Nat → Nat → String → Receiver
deriving DecidableEq, Repr

/-- `Receiver::address()`. -/
def Receiver.address : Receiver → Address
  | .account a => .account a
  | .contract i si _ => .contract i si

/-- One entry of the CIS-2 `TransferParams` list. -/
structure TransferEntry where
  token_id : Nat
  amount : Nat
  src : Address
  dst : Receiver
  data : List Nat
deriving DecidableEq, Repr

/-- `OperatorUpdate` from `concordium_cis2`. -/
inductive OperatorUpdate where
  | Remove
  | Add
deriving DecidableEq, Repr

/-- One entry of `UpdateOperatorParams`. -/
structure UpdateOperatorEntry where
  update : OperatorUpdate
  operator : Address
deriving DecidableEq, Repr

/-- `MintParams` from `mint.rs`: the three positionally matched sequences. -/
structure MintParams where
  owners : List Address
  tokens : List Nat
  token_uris : List String
deriving DecidableEq, Repr

/-- The entries the contract actually logs, one constructor per logged
variant: `ContractEvent::{Mint, TokenMetadata, Minted, Deploy}` from
`events.rs` and `Cis2Event::{Transfer, UpdateOperator}` logged by
`cis2.rs`. -/
inductive LogEvent where
  | Mint (token amount : Nat) (owner : Address)
  | TokenMetadata (token : Nat) (url : String)
  | Minted (token mintCount timestamp : Nat) (url : String)
  | Transfer (token amount : Nat) (src dst : Address)
  | UpdateOperator (owner operator : Address) (isAdd : Bool)
  | Deploy (name symbol contract_uri : String) (minter : Nat)
deriving DecidableEq, Repr

/-- The per-token body of the `contract_mint` loop: `State::mint`, then the
`Mint`, `TokenMetadata` and `Minted` log entries.  `bt` is the block time
read once before the loop.  Entries are the zip of the three parameter
sequences exactly as in the source
(`tokens.iter().zip(owners).zip(token_uris)`). -/
def mintLoop (bt : Nat) :
    State → List LogEvent → List ((Nat × Address) × String) →
    Except ContractError (State × List LogEvent)
  | s, evs, [] => .ok (s, evs)
  | s, evs, ((t, o), u) :: rest =>
    match State.mint s t o u with
    | .error e => .error e
    | .ok (s', c) =>
      mintLoop bt s'
        (evs ++ [.Mint t 1 o, .TokenMetadata t u, .Minted t c bt u]) rest

/-- The zipped entry list of a mint call; `zip` truncates to the shortest of
the three sequences, exactly as the Rust iterator chain does. -/
def zip3entries (p : MintParams) : List ((Nat × Address) × String) :=
  List.zip (List.zip p.tokens p.owners) p.token_uris

/-- `contract_mint` from `mint.rs`: minter authorisation
(`sender.matches_account(&minter)`), the `[mint_start, mint_deadline)`
window checks, then the per-token loop. -/
def contract_mint (ctx : Ctx) (s : State) (p : MintParams) :
    Except ContractError (State × List LogEvent) :=
  if ctx.sender ≠ Address.account s.minter then
    .error .Unauthorized
  else if ctx.block_time < s.mint_start then
    .error (.Custom .MintingNotStarted)
  else if s.mint_deadline ≤ ctx.block_time then
    .error (.Custom .MintDeadlineReached)
  else
    mintLoop ctx.block_time s [] (zip3entries p)

/-- Hook success oracle: whether the CIS-2 receive hook invoked on the
receiving contract accepts the transfer.  The hook is external code; it is
modelled as a pure success/failure outcome per entry. -/
def HookOracle : Type := TransferEntry → Bool

/-- The per-entry body of the `contract_transfer` loop from `cis2.rs`:
authorisation (`from == sender || is_operator`), `State::transfer`, the
`Transfer` log entry, and the receive-hook invocation for contract
receivers (`InvokeContractError` on rejection). -/
def processTransfer (sender : Address) (hook : HookOracle)
    (s : State) (evs : List LogEvent) (e : TransferEntry) :
    Except ContractError (State × List LogEvent) :=
  if ¬(e.src = sender ∨ State.is_operator s sender e.src) then
    .error .Unauthorized
  else
    match State.transfer s e.token_id e.amount e.src e.dst.address with
    | .error er => .error er
    | .ok s' =>
      let evs' := evs ++ [.Transfer e.token_id e.amount e.src e.dst.address]
      match e.dst with
      | .account _ => .ok (s', evs')
      | .contract _ _ _ =>
        if hook e then .ok (s', evs')
        else .error (.Custom .InvokeContractError)

/-- The `contract_transfer` loop over the entry list, in list order. -/
def transferLoop (sender : Address) (hook : HookOracle) :
    State → List LogEvent → List TransferEntry →
    Except ContractError (State × List LogEvent)
  | s, evs, [] => .ok (s, evs)
  | s, evs, e :: rest =>
    match processTransfer sender hook s evs e with
    | .error er => .error er
    | .ok (s', evs') => transferLoop sender hook s' evs' rest

/-- `contract_transfer` from `cis2.rs`. -/
def contract_transfer (ctx : Ctx) (hook : HookOracle) (s : State)
    (ts : List TransferEntry) : Except ContractError (State × List LogEvent) :=
  transferLoop ctx.sender hook s [] ts

/-- The per-entry body of the `contract_update_operator` loop:
`add_operator`/`remove_operator` on the sender's record plus the
`UpdateOperator` log entry for the attempted change. -/
def processOperatorUpdate (sender : Address) (acc : State × List LogEvent)
    (u : UpdateOperatorEntry) : State × List LogEvent :=
  let s' := match u.update with
    | .Add => State.add_operator acc.1 sender u.operator
    | .Remove => State.remove_operator acc.1 sender u.operator
  (s', acc.2 ++ [.UpdateOperator sender u.operator (u.update = .Add)])

/-- `contract_update_operator` from `cis2.rs`: never fails (logging resource
limits are host conditions outside the model). -/
def contract_update_operator (ctx : Ctx) (s : State)
    (us : List UpdateOperatorEntry) :
    Except ContractError (State × List LogEvent) :=
  .ok (us.foldl (processOperatorUpdate ctx.sender) (s, []))

/-- `contract_set_minter` from `setters.rs`: owner-gated. -/
def contract_set_minter (ctx : Ctx) (s : State) (m : Nat) :
    Except ContractError (State × List LogEvent) :=
  if ctx.sender ≠ Address.account ctx.owner then
    .error .Unauthorized
  else
    .ok (State.set_minter s m, [])

/-- `contract_set_implementor` from `cis2.rs`: owner-gated overwrite. -/
def contract_set_implementor (ctx : Ctx) (s : State) (id : String)
    (impls : List (Nat × Nat)) : Except ContractError (State × List LogEvent) :=
  if ctx.sender ≠ Address.account ctx.owner then
    .error .Unauthorized
  else
    .ok (State.set_implementors s id impls, [])

/-! ## Calls, transactional semantics and reachability -/

/-- One external call to a mutating entrypoint. -/
inductive Call where
  | mint (ctx : Ctx) (p : MintParams)
  | transfer (ctx : Ctx) (hook : HookOracle) (ts : List TransferEntry)
  | updateOperator (ctx : Ctx) (us : List UpdateOperatorEntry)
  | setMinter (ctx : Ctx) (m : Nat)
  | setImplementors (ctx : Ctx) (id : String) (impls : List (Nat × Nat))

/-- Dispatch a call to its entrypoint. -/
def applyCall (s : State) : Call → Except ContractError (State × List LogEvent)
  | .mint ctx p => contract_mint ctx s p
  | .transfer ctx hook ts => contract_transfer ctx hook s ts
  | .updateOperator ctx us => contract_update_operator ctx s us
  | .setMinter ctx m => contract_set_minter ctx s m
  | .setImplementors ctx id impls => contract_set_implementor ctx s id impls

/-- Whether an entrypoint result is a success. -/
def isOk {ε α : Type} : Except ε α → Bool
  | .ok _ => true
  | .error _ => false

/-- The state the host persists after a call: the new state on success, the
unchanged pre-call state on failure (the host's transactional rollback). -/
def stateAfter (s : State) (r : Except ContractError (State × List LogEvent)) :
    State :=
  match r with
  | .ok (s', _) => s'
  | .error _ => s

/-- States reachable from a fresh instance through successful calls. -/
inductive Reachable : State → Prop
  | init (p : InitParams) : Reachable (State.init p)
  | step {s s' : State} {c : Call} {evs : List LogEvent} :
      Reachable s → applyCall s c = .ok (s', evs) → Reachable s'

/-! ## Event byte codec (`events.rs`)

The tagged binary encoding of `ContractEvent`: a single leading tag byte
followed by the variant's payload, fields serialised in declaration order
with the `concordium_std`/`concordium_cis2` wire formats (little-endian
fixed-width integers, LEB128 token amounts, length-prefixed byte strings).
Bytes are `Nat` values below 256; `UpdateOperator` events are logged through
the library's `Cis2Event` encoding and are not a `ContractEvent` variant. -/

/-- Little-endian base-256 digits of `n`, exactly `k` bytes. -/
def toLE : Nat → Nat → List Nat
  | 0, _ => []
  | k + 1, n => n % 256 :: toLE k (n / 256)

/-- Value of a little-endian byte list. -/
def fromLE : List Nat → Nat
  | [] => 0
  | b :: r => b + 256 * fromLE r

/-- Read a fixed-width little-endian integer. -/
def rFixed (k : Nat) (l : List Nat) : Option (Nat × List Nat) :=
  if k ≤ l.length then some (fromLE (l.take k), l.drop k) else none

/-- Read `k` raw bytes. -/
def rBytes (k : Nat) (l : List Nat) : Option (List Nat × List Nat) :=
  if k ≤ l.length then some (l.take k, l.drop k) else none

/-- `TokenIdU32` wire format: length byte `4`, then 4 bytes little-endian. -/
def wTokenId (v : Nat) : List Nat := 4 :: toLE 4 v

/-- `TokenIdU32` decoding: the length byte must be exactly `4`. -/
def rTokenId : List Nat → Option (Nat × List Nat)
  | [] => none
  | b :: r => if b = 4 then rFixed 4 r else none

/-- `TokenAmountU8` wire format: unsigned LEB128 (one or two bytes). -/
def wAmount (v : Nat) : List Nat :=
  if v < 128 then [v] else [v % 128 + 128, v / 128]

/-- `TokenAmountU8` decoding: LEB128 limited to the `u8` range. -/
def rAmount : List Nat → Option (Nat × List Nat)
  | [] => none
  | b0 :: r =>
    if b0 < 128 then some (b0, r)
    else
      match r with
      | [] => none
      | b1 :: r2 => if b1 ≤ 1 then some (b0 - 128 + 128 * b1, r2) else none

/-- `Address` wire format: tag byte 0 for accounts (32 raw bytes) or 1 for
contracts (two `u64`s). -/
def wAddress : Address → List Nat
  | .account a => 0 :: toLE 32 a
  | .contract i si => 1 :: (toLE 8 i ++ toLE 8 si)

/-- `Address` decoding. -/
def rAddress : List Nat → Option (Address × List Nat)
  | [] => none
  | b :: r =>
    if b = 0 then
      match rFixed 32 r with
      | some (a, r1) => some (.account a, r1)
      | none => none
    else if b = 1 then
      match rFixed 8 r with
      | some (i, r1) =>
        match rFixed 8 r1 with
        | some (si, r2) => some (.contract i si, r2)
        | none => none
      | none => none
    else none

/-- `MetadataUrl`: a byte-string URL and an optional 32-byte hash. -/
structure MetadataUrlB where
  url : List Nat
  hash : Option Nat
deriving DecidableEq, Repr

/-- `MetadataUrl` wire format: `u16` URL length, URL bytes, then the
`Option` hash (tag byte 0 or 1 plus 32 bytes). -/
def wUrl (m : MetadataUrlB) : List Nat :=
  toLE 2 m.url.length ++ m.url ++
    (match m.hash with | none => [0] | some h => 1 :: toLE 32 h)

/-- `MetadataUrl` decoding. -/
def rUrl (l : List Nat) : Option (MetadataUrlB × List Nat) :=
  match rFixed 2 l with
  | none => none
  | some (n, r1) =>
    match rBytes n r1 with
    | none => none
    | some (u, r2) =>
      match r2 with
      | [] => none
      | b :: r3 =>
        if b = 0 then some (⟨u, none⟩, r3)
        else if b = 1 then
          match rFixed 32 r3 with
          | some (h, r4) => some (⟨u, some h⟩, r4)
          | none => none
        else none

/-- `String` wire format (`concordium_std`): `u32` length then the bytes. -/
def wStr (bs : List Nat) : List Nat := toLE 4 bs.length ++ bs

/-- `String` decoding. -/
def rStr (l : List Nat) : Option (List Nat × List Nat) :=
  match rFixed 4 l with
  | none => none
  | some (n, r1) => rBytes n r1

/-- `TransferEvent` payload (token id, amount, from, to). -/
structure TransferEventB where
  token_id : Nat
  amount : Nat
  src : Address
  dst : Address
deriving DecidableEq, Repr

/-- `MintEvent` payload (token id, amount, owner). -/
structure MintEventB where
  token_id : Nat
  amount : Nat
  owner : Address
deriving DecidableEq, Repr

/-- `TokenMetadataEvent` payload (token id, metadata URL). -/
structure TokenMetadataEventB where
  token_id : Nat
  metadata_url : MetadataUrlB
deriving DecidableEq, Repr

/-- `MintedEvent` payload from `events.rs` (token id, mint count, timestamp,
token URI). -/
structure MintedEventB where
  token_id : Nat
  mint_count : Nat
  timestamp : Nat
  token_uri : MetadataUrlB
deriving DecidableEq, Repr

/-- `DeployEvent` payload from `events.rs`. -/
structure DeployEventB where
  name : List Nat
  symbol : List Nat
  contract_uri : MetadataUrlB
  minter : Nat
  mint_start : Nat
  mint_deadline : Nat
  max_total_supply : Nat
deriving DecidableEq, Repr

/-- `ContractEvent` from `events.rs`: exactly the five variants the contract
defines. -/
inductive ContractEvent where
  | Mint : MintEventB → ContractEvent
  | TokenMetadata : TokenMetadataEventB → ContractEvent
  | Transfer : TransferEventB → ContractEvent
  | Minted : MintedEventB → ContractEvent
  | Deploy : DeployEventB → ContractEvent
deriving DecidableEq, Repr

/-- `concordium_cis2::TRANSFER_EVENT_TAG`. -/
def TRANSFER_EVENT_TAG : Nat := 255
/-- `concordium_cis2::MINT_EVENT_TAG`. -/
def MINT_EVENT_TAG : Nat := 254
/-- `concordium_cis2::TOKEN_METADATA_EVENT_TAG`. -/
def TOKEN_METADATA_EVENT_TAG : Nat := 251
/-- `concordium_cis2::UPDATE_OPERATOR_EVENT_TAG` (used by the library's
`Cis2Event`, not by `ContractEvent`). -/
def UPDATE_OPERATOR_EVENT_TAG : Nat := 252
/-- `MINTED_EVENT_TAG = u8::MIN` from `events.rs`. -/
def MINTED_EVENT_TAG : Nat := 0
/-- `DEPLOY_EVENT_TAG = u8::MIN + 1` from `events.rs`. -/
def DEPLOY_EVENT_TAG : Nat := 1

/-- `TransferEvent` payload encoding. -/
def wTransfer (e : TransferEventB) : List Nat :=
  wTokenId e.token_id ++ wAmount e.amount ++ wAddress e.src ++ wAddress e.dst

/-- `MintEvent` payload encoding. -/
def wMint (e : MintEventB) : List Nat :=
  wTokenId e.token_id ++ wAmount e.amount ++ wAddress e.owner

/-- `TokenMetadataEvent` payload encoding. -/
def wTokenMetadata (e : TokenMetadataEventB) : List Nat :=
  wTokenId e.token_id ++ wUrl e.metadata_url

/-- `MintedEvent` payload encoding. -/
def wMinted (e : MintedEventB) : List Nat :=
  wTokenId e.token_id ++ toLE 4 e.mint_count ++ toLE 8 e.timestamp ++
    wUrl e.token_uri

/-- `DeployEvent` payload encoding (`AccountAddress` is 32 raw bytes). -/
def wDeploy (e : DeployEventB) : List Nat :=
  wStr e.name ++ wStr e.symbol ++ wUrl e.contract_uri ++ toLE 32 e.minter ++
    toLE 8 e.mint_start ++ toLE 8 e.mint_deadline ++
    toLE 4 e.max_total_supply

/-- `Serial for ContractEvent`: the variant tag byte then the payload. -/
def ContractEvent.serial : ContractEvent → List Nat
  | .Transfer e => TRANSFER_EVENT_TAG :: wTransfer e
  | .Mint e => MINT_EVENT_TAG :: wMint e
  | .TokenMetadata e => TOKEN_METADATA_EVENT_TAG :: wTokenMetadata e
  | .Minted e => MINTED_EVENT_TAG :: wMinted e
  | .Deploy e => DEPLOY_EVENT_TAG :: wDeploy e

/-- `TransferEvent` payload decoding. -/
def rTransfer (l : List Nat) : Option (TransferEventB × List Nat) :=
  match rTokenId l with
  | none => none
  | some (t, l1) =>
    match rAmount l1 with
    | none => none
    | some (a, l2) =>
      match rAddress l2 with
      | none => none
      | some (f, l3) =>
        match rAddress l3 with
        | none => none
        | some (d, l4) => some (⟨t, a, f, d⟩, l4)

/-- `MintEvent` payload decoding. -/
def rMint (l : List Nat) : Option (MintEventB × List Nat) :=
  match rTokenId l with
  | none => none
  | some (t, l1) =>
    match rAmount l1 with
    | none => none
    | some (a, l2) =>
      match rAddress l2 with
      | none => none
      | some (o, l3) => some (⟨t, a, o⟩, l3)

/-- `TokenMetadataEvent` payload decoding. -/
def rTokenMetadata (l : List Nat) : Option (TokenMetadataEventB × List Nat) :=
  match rTokenId l with
  | none => none
  | some (t, l1) =>
    match rUrl l1 with
    | none => none
    | some (m, l2) => some (⟨t, m⟩, l2)

/-- `MintedEvent` payload decoding. -/
def rMinted (l : List Nat) : Option (MintedEventB × List Nat) :=
  match rTokenId l with
  | none => none
  | some (t, l1) =>
    match rFixed 4 l1 with
    | none => none
    | some (c, l2) =>
      match rFixed 8 l2 with
      | none => none
      | some (ts, l3) =>
        match rUrl l3 with
        | none => none
        | some (m, l4) => some (⟨t, c, ts, m⟩, l4)

/-- `DeployEvent` payload decoding. -/
def rDeploy (l : List Nat) : Option (DeployEventB × List Nat) :=
  match rStr l with
  | none => none
  | some (n, l1) =>
    match rStr l1 with
    | none => none
    | some (sy, l2) =>
      match rUrl l2 with
      | none => none
      | some (cu, l3) =>
        match rFixed 32 l3 with
        | none => none
        | some (m, l4) =>
          match rFixed 8 l4 with
          | none => none
          | some (ms, l5) =>
            match rFixed 8 l5 with
            | none => none
            | some (md, l6) =>
              match rFixed 4 l6 with
              | none => none
              | some (mx, l7) => some (⟨n, sy, cu, m, ms, md, mx⟩, l7)

/-- `Deserial for ContractEvent`: read the tag byte, dispatch to the variant
decoders in the order of the source `match`, and fail on any other tag. -/
def ContractEvent.deserial (l : List Nat) : Option (ContractEvent × List Nat) :=
  match l with
  | [] => none
  | tag :: r =>
    if tag = TRANSFER_EVENT_TAG then
      match rTransfer r with
      | some (e, r1) => some (.Transfer e, r1)
      | none => none
    else if tag = MINT_EVENT_TAG then
      match rMint r with
      | some (e, r1) => some (.Mint e, r1)
      | none => none
    else if tag = TOKEN_METADATA_EVENT_TAG then
      match rTokenMetadata r with
      | some (e, r1) => some (.TokenMetadata e, r1)
      | none => none
    else if tag = MINTED_EVENT_TAG then
      match rMinted r with
      | some (e, r1) => some (.Minted e, r1)
      | none => none
    else if tag = DEPLOY_EVENT_TAG then
      match rDeploy r with
      | some (e, r1) => some (.Deploy e, r1)
      | none => none
    else none

/-- Well-formed address field values: within the widths of the Rust types. -/
def wfAddress : Address → Prop
  | .account a => a < 2 ^ 256
  | .contract i si => i < 2 ^ 64 ∧ si < 2 ^ 64

/-- Well-formed metadata URLs: the length fits the `u16` length field and
the optional hash is 32 bytes. -/
def MetadataUrlB.wf (m : MetadataUrlB) : Prop :=
  m.url.length < 2 ^ 16 ∧
    (match m.hash with | none => True | some h => h < 2 ^ 256)

/-- Well-formed events: every numeric field within the width of its Rust
type and every byte string within its length prefix. -/
def ContractEvent.wf : ContractEvent → Prop
  | .Transfer e =>
      e.token_id < 2 ^ 32 ∧ e.amount < 2 ^ 8 ∧ wfAddress e.src ∧ wfAddress e.dst
  | .Mint e => e.token_id < 2 ^ 32 ∧ e.amount < 2 ^ 8 ∧ wfAddress e.owner
  | .TokenMetadata e => e.token_id < 2 ^ 32 ∧ e.metadata_url.wf
  | .Minted e =>
      e.token_id < 2 ^ 32 ∧ e.mint_count < 2 ^ 32 ∧ e.timestamp < 2 ^ 64 ∧
        e.token_uri.wf
  | .Deploy e =>
      e.name.length < 2 ^ 32 ∧ e.symbol.length < 2 ^ 32 ∧ e.contract_uri.wf ∧
        e.minter < 2 ^ 256 ∧ e.mint_start < 2 ^ 64 ∧ e.mint_deadline < 2 ^ 64 ∧
        e.max_total_supply < 2 ^ 32

/-! ## Concrete instances used by the claim analyses -/

/-- A small demo deployment: minter account 0, window `[100, 1000)`,
supply cap 10. -/
def demoParams : InitParams :=
  { name := "NFT", symbol := "T", contract_uri := "uri", minter := 0,
    mint_start := 100, mint_deadline := 1000, max_total_supply := 10 }

/-- A call context by the minter inside the minting window. -/
def demoCtx : Ctx := { sender := .account 0, owner := 0, block_time := 150 }

/-- The fresh demo instance. -/
def demoS0 : State := State.init demoParams

/-- A mint call giving token 2 to account 1. -/
def demoMint : Call :=
  .mint demoCtx { owners := [.account 1], tokens := [2], token_uris := ["u2"] }

/-- The demo state after that mint: account 1 owns token 2. -/
def demoS1 : State := stateAfter demoS0 (applyCall demoS0 demoMint)

/-- The mint parameters of the repository's own
`test_mint_should_fail_when_arrays_not_equal` test: two owners but three
tokens and three URIs. -/
def c1Params : MintParams :=
  { owners := [.account 1, .account 1], tokens := [2, 20, 200],
    token_uris := ["ipfs://test", "ipfs://test1", "ipfs://test2"] }

/-- Deployment at the supply-cap boundary used for the counter-overflow
analysis: cap `2 ^ 32 - 1`, window `[0, 1)`, minter account 0. -/
def capParams : InitParams :=
  { name := "", symbol := "", contract_uri := "", minter := 0,
    mint_start := 0, mint_deadline := 1, max_total_supply := 2 ^ 32 - 1 }

/-- Mint-call context matching `capParams`. -/
def capCtx : Ctx := { sender := .account 0, owner := 0, block_time := 0 }

/-- A single-token mint call of token id `t` under `capParams`. -/
def mintCallOf (t : Nat) : Call :=
  .mint capCtx { owners := [.account 1], tokens := [t], token_uris := ["u"] }

/-- The state after `n` single-token mint calls of token ids `0, 1, …`:
each step applies the next call through the host's commit/rollback. -/
def traceState : Nat → State
  | 0 => State.init capParams
  | n + 1 => stateAfter (traceState n) (applyCall (traceState n) (mintCallOf n))

/-- The operator grant: account 1 enables account 2 as operator. -/
def demoAddOp : Call :=
  .updateOperator { sender := .account 1, owner := 0, block_time := 200 }
    [{ update := .Add, operator := .account 2 }]

/-- The demo state where account 1 owns token 2 and account 2 is account 1's
operator. -/
def demoS2 : State := stateAfter demoS1 (applyCall demoS1 demoAddOp)

/-- A deployment with supply cap 0: its fresh state already sits at the cap. -/
def zeroCapParams : InitParams :=
  { name := "Z", symbol := "Z", contract_uri := "", minter := 0,
    mint_start := 0, mint_deadline := 10, max_total_supply := 0 }

/-- A deployment with supply cap 1: a two-token batch mint trips the cap at
its second entry. -/
def oneCapParams : InitParams :=
  { name := "O", symbol := "O", contract_uri := "", minter := 0,
    mint_start := 0, mint_deadline := 10, max_total_supply := 1 }

/-- A CIS-2 `UpdateOperatorEvent` encoding: tag 252, the `Add` update byte,
then the owner and operator addresses. -/
def updateOperatorBytes : List Nat :=
  UPDATE_OPERATOR_EVENT_TAG :: 1 ::
    (wAddress (.account 5) ++ wAddress (.account 7))

/-! ## The ledger invariant -/

/-- The coherence invariant of the ledger, preserved by every successful
call: `all_tokens` is duplicate-free; the mint counter tracks the token
count modulo the `u32` width and respects the supply cap; a token is
registered iff it has a URI, iff it has a mint sequence number, iff exactly
one address owns it. -/
structure Inv (s : State) : Prop where
  nodupTokens : s.all_tokens.Nodup
  counterEq : s.counter = s.all_tokens.length % 2 ^ 32
  counterLe : s.counter ≤ s.max_total_supply
  uriIff : ∀ t, t ∈ s.all_tokens ↔ (s.token_uris t).isSome
  mintCountIff : ∀ t, t ∈ s.all_tokens ↔ (s.mint_count t).isSome
  ownedSub : ∀ a t, t ∈ (s.address_state a).owned_tokens → t ∈ s.all_tokens
  uniqueOwner : ∀ t, t ∈ s.all_tokens →
    ∃! a, t ∈ (s.address_state a).owned_tokens

/-! ## Set and map helper lemmas -/

theorem mem_sinsert {α : Type} [DecidableEq α] {l : List α} {a x : α} :
    x ∈ (sinsert l a).2 ↔ x ∈ l ∨ x = a := by
  unfold sinsert
  by_cases h : a ∈ l
  · simp only [if_pos h]
    constructor
    · exact fun hx => Or.inl hx
    · rintro (hx | rfl) <;> [exact hx; exact h]
  · simp [if_neg h]

theorem sinsert_of_mem {α : Type} [DecidableEq α] {l : List α} {a : α}
    (h : a ∈ l) : (sinsert l a).2 = l := by
  simp [sinsert, h]

theorem sinsert_nodup {α : Type} [DecidableEq α] {l : List α} {a : α}
    (h : l.Nodup) : (sinsert l a).2.Nodup := by
  unfold sinsert
  by_cases ha : a ∈ l
  · simpa [ha] using h
  · simp only [if_neg ha]
    refine List.Nodup.append h (List.nodup_singleton a) ?_
    intro x hx hxa
    rw [List.mem_singleton] at hxa
    exact ha (hxa ▸ hx)

theorem mem_sremove {α : Type} [DecidableEq α] {l : List α} {a x : α} :
    x ∈ sremove l a ↔ x ∈ l ∧ x ≠ a := by
  simp [sremove]

theorem sremove_of_not_mem {α : Type} [DecidableEq α] {l : List α} {a : α}
    (h : a ∉ l) : sremove l a = l := by
  apply List.filter_eq_self.mpr
  intro x hx
  simp only [decide_eq_true_eq]
  exact fun he => h (he ▸ hx)

theorem mapUpdate_same {β : Type} (f : Address → β) (k : Address) (v : β) :
    mapUpdate f k v k = v := by
  simp [mapUpdate]

theorem mapUpdate_ne {β : Type} (f : Address → β) (k : Address) (v : β)
    {a : Address} (h : a ≠ k) : mapUpdate f k v a = f a := by
  simp [mapUpdate, h]

theorem mapUpdate_self {β : Type} (f : Address → β) (k : Address) :
    mapUpdate f k (f k) = f := by
  funext a
  by_cases h : a = k
  · subst h; simp [mapUpdate]
  · simp [mapUpdate, h]

theorem inv_init (p : InitParams) : Inv (State.init p) := by
  refine ⟨List.nodup_nil, rfl, Nat.zero_le _, ?_, ?_, ?_, ?_⟩
  · intro t; simp [State.init]
  · intro t; simp [State.init]
  · intro a t h; simp [State.init, AddressState.empty] at h
  · intro t h; simp [State.init] at h

/-- Successful `State::mint` returns exactly the state built from fresh
token data; this unfolding lemma exposes the success conditions and the
new state. -/
theorem mint_ok_elim {s : State} {token : Nat} {owner : Address}
    {uri : String} {s' : State} {c : Nat}
    (h : State.mint s token owner uri = .ok (s', c)) :
    token ∉ s.all_tokens ∧ (s.token_uris token).isSome = false ∧
    c = (s.counter + 1) % 2 ^ 32 ∧ c ≤ s.max_total_supply ∧
    s' = { s with
            all_tokens := s.all_tokens ++ [token]
            token_uris := fun t => if t = token then some uri else s.token_uris t
            counter := c
            mint_count := fun t => if t = token then some c else s.mint_count t
            address_state := mapUpdate s.address_state owner
              { s.address_state owner with
                  owned_tokens :=
                    (sinsert (s.address_state owner).owned_tokens token).2 } } := by
  simp only [State.mint] at h
  split at h
  · exact Except.noConfusion h
  · split at h
    · exact Except.noConfusion h
    · split at h
      · exact Except.noConfusion h
      · rename_i h1 h2 h3
        injection h with hp
        have hc : _ = c := congrArg Prod.snd hp
        subst hc
        have hs : _ = s' := congrArg Prod.fst hp
        refine ⟨h1, by simpa using h2, rfl, ?_, hs.symm⟩
        show (s.counter + 1) % 2 ^ 32 ≤ s.max_total_supply
        omega

/-- `State::mint` preserves the ledger invariant. -/
theorem mint_inv {s : State} {token : Nat} {owner : Address} {uri : String}
    {s' : State} {c : Nat}
    (h : State.mint s token owner uri = .ok (s', c)) (inv : Inv s) : Inv s' := by
  obtain ⟨h1, h2, hc, hle, hs⟩ := mint_ok_elim h
  subst hs
  refine ⟨?_, ?_, ?_, ?_, ?_, ?_, ?_⟩
  · show (s.all_tokens ++ [token]).Nodup
    refine List.Nodup.append inv.nodupTokens (List.nodup_singleton token) ?_
    intro x hx hxa
    rw [List.mem_singleton] at hxa
    exact h1 (hxa ▸ hx)
  · show c = (s.all_tokens ++ [token]).length % 2 ^ 32
    have := inv.counterEq
    simp only [List.length_append, List.length_singleton]
    omega
  · exact hle
  · intro t
    show t ∈ s.all_tokens ++ [token] ↔
      (if t = token then some uri else s.token_uris t).isSome
    by_cases ht : t = token
    · subst ht
      simp
    · simp only [List.mem_append, List.mem_singleton, ht, or_false, if_neg ht]
      exact inv.uriIff t
  · intro t
    show t ∈ s.all_tokens ++ [token] ↔
      (if t = token then some c else s.mint_count t).isSome
    by_cases ht : t = token
    · subst ht
      simp
    · simp only [List.mem_append, List.mem_singleton, ht, or_false, if_neg ht]
      exact inv.mintCountIff t
  · intro a t hmem
    dsimp only at hmem
    show t ∈ s.all_tokens ++ [token]
    rw [List.mem_append, List.mem_singleton]
    by_cases ha : a = owner
    · subst ha
      rw [mapUpdate_same] at hmem
      rcases mem_sinsert.mp hmem with hm | hm
      · exact Or.inl (inv.ownedSub a t hm)
      · exact Or.inr hm
    · rw [mapUpdate_ne _ _ _ ha] at hmem
      exact Or.inl (inv.ownedSub a t hmem)
  · intro t ht
    dsimp only at ht ⊢
    rw [List.mem_append, List.mem_singleton] at ht
    rcases ht with ht | rfl
    · obtain ⟨a0, ha0, huniq⟩ := inv.uniqueOwner t ht
      have htt : t ≠ token := fun he => h1 (he ▸ ht)
      refine ⟨a0, ?_, ?_⟩
      · simp only [mapUpdate]
        by_cases ha : a0 = owner
        · rw [if_pos ha]
          exact mem_sinsert.mpr (Or.inl (ha ▸ ha0))
        · rw [if_neg ha]
          exact ha0
      · intro b hb
        simp only [mapUpdate] at hb
        by_cases hb' : b = owner
        · rw [if_pos hb'] at hb
          rcases mem_sinsert.mp hb with hm | hm
          · exact huniq b (hb' ▸ hm)
          · exact absurd hm htt
        · rw [if_neg hb'] at hb
          exact huniq b hb
    · refine ⟨owner, ?_, ?_⟩
      · simp only [mapUpdate, if_pos rfl]
        exact mem_sinsert.mpr (Or.inr rfl)
      · intro b hb
        simp only [mapUpdate] at hb
        by_cases hb' : b = owner
        · exact hb'
        · rw [if_neg hb'] at hb
          exact absurd (inv.ownedSub b t hb) h1

/-- Successful `State::transfer` is either the zero-amount no-op or the
two-halves ownership move of an owned, existing token at amount 1. -/
theorem transfer_ok_elim {s : State} {token amount : Nat} {src dst : Address}
    {s' : State} (h : State.transfer s token amount src dst = .ok s') :
    token ∈ s.all_tokens ∧
    ((amount = 0 ∧ s' = s) ∨
     (amount = 1 ∧ token ∈ (s.address_state src).owned_tokens ∧
      s' = transferResult s token src dst)) := by
  unfold State.transfer at h
  split at h
  · exact Except.noConfusion h
  · split at h
    · rename_i hex h0
      rw [not_not] at hex
      exact ⟨hex, Or.inl ⟨h0, (Except.ok.inj h).symm⟩⟩
    · split at h
      · exact Except.noConfusion h
      · split at h
        · exact Except.noConfusion h
        · rename_i hex h0 h1 howned
          rw [not_not] at hex howned
          rw [ne_eq, not_not] at h1
          exact ⟨hex, Or.inr ⟨h1, howned, (Except.ok.inj h).symm⟩⟩

/-- Ownership membership in the transfer result, characterised address by
address. -/
theorem transferResult_mem {s : State} {token : Nat} {src dst : Address}
    (a : Address) (t : Nat) :
    (t ∈ ((transferResult s token src dst).address_state a).owned_tokens) ↔
      ((a = dst ∧ (t = token ∨
          (t ∈ (s.address_state a).owned_tokens ∧ (a ≠ src ∨ t ≠ token)))) ∨
       (a ≠ dst ∧ a = src ∧
          (t ∈ (s.address_state a).owned_tokens ∧ t ≠ token)) ∨
       (a ≠ dst ∧ a ≠ src ∧ t ∈ (s.address_state a).owned_tokens)) := by
  unfold transferResult
  by_cases had : a = dst
  · subst had
    by_cases has : a = src
    · subst has
      simp only [mapUpdate, if_true, eq_self_iff_true, mem_sinsert,
        mem_sremove]
      tauto
    · simp [mapUpdate, has, mem_sinsert, mem_sremove]
      tauto
  · by_cases has : a = src
    · subst has
      simp [mapUpdate, had, mem_sinsert, mem_sremove]
    · simp [mapUpdate, had, has, mem_sinsert, mem_sremove]

/-- Fields other than the per-address ownership records are untouched by the
transfer mutation. -/
theorem transferResult_fields (s : State) (token : Nat) (src dst : Address) :
    (transferResult s token src dst).all_tokens = s.all_tokens ∧
    (transferResult s token src dst).counter = s.counter ∧
    (transferResult s token src dst).max_total_supply = s.max_total_supply ∧
    (transferResult s token src dst).token_uris = s.token_uris ∧
    (transferResult s token src dst).mint_count = s.mint_count := by
  refine ⟨rfl, rfl, rfl, rfl, rfl⟩

/-- `State::transfer` preserves the ledger invariant. -/
theorem transfer_inv {s : State} {token amount : Nat} {src dst : Address}
    {s' : State} (h : State.transfer s token amount src dst = .ok s')
    (inv : Inv s) : Inv s' := by
  obtain ⟨htok, hcase⟩ := transfer_ok_elim h
  rcases hcase with ⟨-, rfl⟩ | ⟨-, howned, rfl⟩
  · exact inv
  · refine ⟨inv.nodupTokens, inv.counterEq, inv.counterLe, inv.uriIff,
      inv.mintCountIff, ?_, ?_⟩
    · intro a t hmem
      show t ∈ s.all_tokens
      rcases (transferResult_mem a t).mp hmem with
        ⟨_, (rfl | ⟨hm, _⟩)⟩ | ⟨_, _, hm, _⟩ | ⟨_, _, hm⟩
      · exact htok
      · exact inv.ownedSub a t hm
      · exact inv.ownedSub a t hm
      · exact inv.ownedSub a t hm
    · intro t ht
      show ∃! a, t ∈ ((transferResult s token src dst).address_state a).owned_tokens
      obtain ⟨a0, ha0, huniq⟩ := inv.uniqueOwner t ht
      by_cases htt : t = token
      · subst htt
        have hsrc : src = a0 := huniq src howned
        refine ⟨dst, ?_, ?_⟩
        · exact (transferResult_mem dst t).mpr (Or.inl ⟨rfl, Or.inl rfl⟩)
        · intro b hb
          rcases (transferResult_mem b t).mp hb with
            ⟨hbd, _⟩ | ⟨_, _, _, hne⟩ | ⟨_, hbs, hm⟩
          · exact hbd
          · exact absurd rfl hne
          · exact absurd (hsrc ▸ huniq b hm) hbs
      · have hmem_iff : ∀ a,
            (t ∈ ((transferResult s token src dst).address_state a).owned_tokens ↔
             t ∈ (s.address_state a).owned_tokens) := by
          intro a
          rw [transferResult_mem a t]
          constructor
          · rintro (⟨_, (rfl | ⟨hm, _⟩)⟩ | ⟨_, _, hm, _⟩ | ⟨_, _, hm⟩)
            · exact absurd rfl htt
            · exact hm
            · exact hm
            · exact hm
          · intro hm
            by_cases had : a = dst
            · exact Or.inl ⟨had, Or.inr ⟨hm, Or.inr htt⟩⟩
            · by_cases has : a = src
              · exact Or.inr (Or.inl ⟨had, has, hm, htt⟩)
              · exact Or.inr (Or.inr ⟨had, has, hm⟩)
        refine ⟨a0, (hmem_iff a0).mpr ha0, ?_⟩
        intro b hb
        exact huniq b ((hmem_iff b).mp hb)

/-- Operator updates do not touch any `owned_tokens` set. -/
theorem add_operator_owned (s : State) (owner op a : Address) :
    ((State.add_operator s owner op).address_state a).owned_tokens =
    (s.address_state a).owned_tokens := by
  unfold State.add_operator mapUpdate
  by_cases h : a = owner <;> simp [h]

/-- Operator removal does not touch any `owned_tokens` set. -/
theorem remove_operator_owned (s : State) (owner op a : Address) :
    ((State.remove_operator s owner op).address_state a).owned_tokens =
    (s.address_state a).owned_tokens := by
  unfold State.remove_operator mapUpdate
  by_cases h : a = owner <;> simp [h]

theorem add_operator_inv {s : State} {owner op : Address} (inv : Inv s) :
    Inv (State.add_operator s owner op) := by
  refine ⟨inv.nodupTokens, inv.counterEq, inv.counterLe, inv.uriIff,
    inv.mintCountIff, ?_, ?_⟩
  · intro a t hmem
    rw [add_operator_owned] at hmem
    exact inv.ownedSub a t hmem
  · intro t ht
    obtain ⟨a0, ha0, hu⟩ := inv.uniqueOwner t ht
    refine ⟨a0, ?_, ?_⟩
    · show t ∈ ((State.add_operator s owner op).address_state a0).owned_tokens
      rw [add_operator_owned]
      exact ha0
    · intro b hb
      rw [show ((State.add_operator s owner op).address_state b).owned_tokens =
        _ from add_operator_owned s owner op b] at hb
      exact hu b hb

theorem remove_operator_inv {s : State} {owner op : Address} (inv : Inv s) :
    Inv (State.remove_operator s owner op) := by
  refine ⟨inv.nodupTokens, inv.counterEq, inv.counterLe, inv.uriIff,
    inv.mintCountIff, ?_, ?_⟩
  · intro a t hmem
    rw [remove_operator_owned] at hmem
    exact inv.ownedSub a t hmem
  · intro t ht
    obtain ⟨a0, ha0, hu⟩ := inv.uniqueOwner t ht
    refine ⟨a0, ?_, ?_⟩
    · show t ∈ ((State.remove_operator s owner op).address_state a0).owned_tokens
      rw [remove_operator_owned]
      exact ha0
    · intro b hb
      rw [show ((State.remove_operator s owner op).address_state b).owned_tokens =
        _ from remove_operator_owned s owner op b] at hb
      exact hu b hb

/-- The body of the mint loop preserves the invariant along its whole run. -/
theorem mintLoop_inv {bt : Nat} :
    ∀ (entries : List ((Nat × Address) × String)) (s : State)
      (evs : List LogEvent) (s' : State) (evs' : List LogEvent),
      mintLoop bt s evs entries = .ok (s', evs') → Inv s → Inv s'
  | [], s, evs, s', evs', h, inv => by
      simp only [mintLoop] at h
      injection h with hp
      have hs : s = s' := congrArg Prod.fst hp
      exact hs ▸ inv
  | ((t, o), u) :: rest, s, evs, s', evs', h, inv => by
      rw [mintLoop] at h
      split at h
      · exact Except.noConfusion h
      · rename_i pr hmint
        exact mintLoop_inv rest _ _ _ _ h (mint_inv hmint inv)

/-- Each transfer entry preserves the invariant. -/
theorem processTransfer_inv {sender : Address} {hook : HookOracle} {s : State}
    {evs : List LogEvent} {e : TransferEntry} {s' : State}
    {evs' : List LogEvent}
    (h : processTransfer sender hook s evs e = .ok (s', evs'))
    (inv : Inv s) : Inv s' := by
  unfold processTransfer at h
  split at h
  · exact Except.noConfusion h
  · split at h
    · exact Except.noConfusion h
    · rename_i s1 htr
      split at h
      · injection h with hp
        have hs : s1 = s' := congrArg Prod.fst hp
        exact hs ▸ transfer_inv htr inv
      · split at h
        · injection h with hp
          have hs : s1 = s' := congrArg Prod.fst hp
          exact hs ▸ transfer_inv htr inv
        · exact Except.noConfusion h

theorem transferLoop_inv {sender : Address} {hook : HookOracle} :
    ∀ (ts : List TransferEntry) (s : State) (evs : List LogEvent)
      (s' : State) (evs' : List LogEvent),
      transferLoop sender hook s evs ts = .ok (s', evs') → Inv s → Inv s'
  | [], s, evs, s', evs', h, inv => by
      simp only [transferLoop] at h
      injection h with hp
      have hs : s = s' := congrArg Prod.fst hp
      exact hs ▸ inv
  | e :: rest, s, evs, s', evs', h, inv => by
      rw [transferLoop] at h
      split at h
      · exact Except.noConfusion h
      · rename_i pr hpe
        exact transferLoop_inv rest _ _ _ _ h (processTransfer_inv hpe inv)

theorem processOperatorUpdate_inv {sender : Address}
    {acc : State × List LogEvent} {u : UpdateOperatorEntry}
    (inv : Inv acc.1) : Inv (processOperatorUpdate sender acc u).1 := by
  unfold processOperatorUpdate
  cases u.update
  · exact remove_operator_inv inv
  · exact add_operator_inv inv

theorem foldl_operator_inv {sender : Address} :
    ∀ (us : List UpdateOperatorEntry) (acc : State × List LogEvent),
      Inv acc.1 → Inv (us.foldl (processOperatorUpdate sender) acc).1
  | [], acc, inv => inv
  | u :: rest, acc, inv =>
      foldl_operator_inv rest _ (processOperatorUpdate_inv inv)

/-- Every successful call preserves the ledger invariant. -/
theorem applyCall_inv {s s' : State} {c : Call} {evs' : List LogEvent}
    (h : applyCall s c = .ok (s', evs')) (inv : Inv s) : Inv s' := by
  cases c with
  | mint ctx p =>
      simp only [applyCall, contract_mint] at h
      split at h
      · exact Except.noConfusion h
      · split at h
        · exact Except.noConfusion h
        · split at h
          · exact Except.noConfusion h
          · exact mintLoop_inv _ _ _ _ _ h inv
  | transfer ctx hook ts =>
      simp only [applyCall, contract_transfer] at h
      exact transferLoop_inv _ _ _ _ _ h inv
  | updateOperator ctx us =>
      simp only [applyCall, contract_update_operator] at h
      injection h with hp
      have hs : (us.foldl (processOperatorUpdate ctx.sender) (s, [])).1 = s' :=
        congrArg Prod.fst hp
      exact hs ▸ foldl_operator_inv us (s, []) inv
  | setMinter ctx m =>
      simp only [applyCall, contract_set_minter] at h
      split at h
      · exact Except.noConfusion h
      · injection h with hp
        have : (State.set_minter s m) = s' := congrArg Prod.fst hp
        exact this ▸
          ⟨inv.nodupTokens, inv.counterEq, inv.counterLe, inv.uriIff,
            inv.mintCountIff, inv.ownedSub, inv.uniqueOwner⟩
  | setImplementors ctx id impls =>
      simp only [applyCall, contract_set_implementor] at h
      split at h
      · exact Except.noConfusion h
      · injection h with hp
        have : (State.set_implementors s id impls) = s' := congrArg Prod.fst hp
        exact this ▸
          ⟨inv.nodupTokens, inv.counterEq, inv.counterLe, inv.uriIff,
            inv.mintCountIff, inv.ownedSub, inv.uniqueOwner⟩

/-- Every reachable state satisfies the ledger invariant. -/
theorem reachable_inv {s : State} (h : Reachable s) : Inv s := by
  induction h with
  | init p => exact inv_init p
  | step _ hc ih => exact applyCall_inv hc ih

/-! ## Codec round-trip lemmas -/

theorem toLE_length (k n : Nat) : (toLE k n).length = k := by
  induction k generalizing n with
  | zero => rfl
  | succ k ih => simp [toLE, ih]

theorem fromLE_toLE {k n : Nat} (h : n < 256 ^ k) : fromLE (toLE k n) = n := by
  induction k generalizing n with
  | zero =>
      have : n = 0 := by simpa using h
      simp [this, toLE, fromLE]
  | succ k ih =>
      have hlt : n / 256 < 256 ^ k := by
        rw [Nat.div_lt_iff_lt_mul (by norm_num)]
        calc n < 256 ^ (k + 1) := h
        _ = 256 ^ k * 256 := by ring
      simp only [toLE, fromLE, ih hlt]
      omega

theorem rFixed_toLE {k n : Nat} (h : n < 256 ^ k) (r : List Nat) :
    rFixed k (toLE k n ++ r) = some (n, r) := by
  have hl : (toLE k n).length = k := toLE_length k n
  have ht := List.take_left (toLE k n) r
  have hd := List.drop_left (toLE k n) r
  rw [hl] at ht hd
  simp [rFixed, ht, hd, fromLE_toLE h, hl]

theorem rBytes_append (bs r : List Nat) :
    rBytes bs.length (bs ++ r) = some (bs, r) := by
  have hk : bs.length ≤ (bs ++ r).length := by simp
  simp [rBytes, hk, List.take_left, List.drop_left]

theorem rTokenId_w {v : Nat} (h : v < 2 ^ 32) (r : List Nat) :
    rTokenId (wTokenId v ++ r) = some (v, r) := by
  have h' : v < 256 ^ 4 := by norm_num at h ⊢; omega
  simp [wTokenId, rTokenId, rFixed_toLE h']

theorem rAmount_w {v : Nat} (h : v < 2 ^ 8) (r : List Nat) :
    rAmount (wAmount v ++ r) = some (v, r) := by
  unfold wAmount
  by_cases hv : v < 128
  · simp [hv, rAmount]
  · have h1 : ¬ v % 128 + 128 < 128 := by omega
    have h2 : v / 128 ≤ 1 := by omega
    simp only [if_neg hv, List.cons_append, List.nil_append, rAmount,
      if_neg h1, if_pos h2]
    congr 2
    omega

theorem rAddress_w {a : Address} (h : wfAddress a) (r : List Nat) :
    rAddress (wAddress a ++ r) = some (a, r) := by
  cases a with
  | account v =>
      have h' : v < 256 ^ 32 := by
        have : (256 : Nat) ^ 32 = 2 ^ 256 := by norm_num
        rw [this]
        exact h
      simp [wAddress, rAddress, rFixed_toLE h']
  | contract i si =>
      obtain ⟨hi, hsi⟩ := h
      have hpow : (256 : Nat) ^ 8 = 2 ^ 64 := by norm_num
      have hi' : i < 256 ^ 8 := by rw [hpow]; exact hi
      have hsi' : si < 256 ^ 8 := by rw [hpow]; exact hsi
      simp [wAddress, rAddress, List.append_assoc, rFixed_toLE hi',
        rFixed_toLE hsi']

theorem rUrl_w {m : MetadataUrlB} (h : m.wf) (r : List Nat) :
    rUrl (wUrl m ++ r) = some (m, r) := by
  obtain ⟨hlen, hhash⟩ := h
  have hlen' : m.url.length < 256 ^ 2 := by norm_num at hlen ⊢; omega
  cases m with
  | mk url hash =>
    cases hash with
    | none =>
        simp [wUrl, rUrl, List.append_assoc, rFixed_toLE hlen',
          rBytes_append]
    | some hv =>
        have hv' : hv < 256 ^ 32 := by
          have : (256 : Nat) ^ 32 = 2 ^ 256 := by norm_num
          rw [this]
          exact hhash
        simp [wUrl, rUrl, List.append_assoc, rFixed_toLE hlen',
          rBytes_append, rFixed_toLE hv']

theorem rStr_w {bs : List Nat} (h : bs.length < 2 ^ 32) (r : List Nat) :
    rStr (wStr bs ++ r) = some (bs, r) := by
  have h' : bs.length < 256 ^ 4 := by norm_num at h ⊢; omega
  simp [wStr, rStr, List.append_assoc, rFixed_toLE h', rBytes_append]

theorem rTransfer_w {e : TransferEventB}
    (h1 : e.token_id < 2 ^ 32) (h2 : e.amount < 2 ^ 8)
    (h3 : wfAddress e.src) (h4 : wfAddress e.dst) (r : List Nat) :
    rTransfer (wTransfer e ++ r) = some (e, r) := by
  simp [wTransfer, rTransfer, List.append_assoc, rTokenId_w h1,
    rAmount_w h2, rAddress_w h3, rAddress_w h4]

theorem rMint_w {e : MintEventB}
    (h1 : e.token_id < 2 ^ 32) (h2 : e.amount < 2 ^ 8)
    (h3 : wfAddress e.owner) (r : List Nat) :
    rMint (wMint e ++ r) = some (e, r) := by
  simp [wMint, rMint, List.append_assoc, rTokenId_w h1, rAmount_w h2,
    rAddress_w h3]

theorem rTokenMetadata_w {e : TokenMetadataEventB}
    (h1 : e.token_id < 2 ^ 32) (h2 : e.metadata_url.wf) (r : List Nat) :
    rTokenMetadata (wTokenMetadata e ++ r) = some (e, r) := by
  simp [wTokenMetadata, rTokenMetadata, List.append_assoc, rTokenId_w h1,
    rUrl_w h2]

theorem rMinted_w {e : MintedEventB}
    (h1 : e.token_id < 2 ^ 32) (h2 : e.mint_count < 2 ^ 32)
    (h3 : e.timestamp < 2 ^ 64) (h4 : e.token_uri.wf) (r : List Nat) :
    rMinted (wMinted e ++ r) = some (e, r) := by
  have h2' : e.mint_count < 256 ^ 4 := by norm_num at h2 ⊢; omega
  have h3' : e.timestamp < 256 ^ 8 := by norm_num at h3 ⊢; omega
  simp [wMinted, rMinted, List.append_assoc, rTokenId_w h1,
    rFixed_toLE h2', rFixed_toLE h3', rUrl_w h4]

theorem rDeploy_w {e : DeployEventB}
    (h1 : e.name.length < 2 ^ 32) (h2 : e.symbol.length < 2 ^ 32)
    (h3 : e.contract_uri.wf) (h4 : e.minter < 2 ^ 256)
    (h5 : e.mint_start < 2 ^ 64) (h6 : e.mint_deadline < 2 ^ 64)
    (h7 : e.max_total_supply < 2 ^ 32) (r : List Nat) :
    rDeploy (wDeploy e ++ r) = some (e, r) := by
  have h4' : e.minter < 256 ^ 32 := by
    have : (256 : Nat) ^ 32 = 2 ^ 256 := by norm_num
    rw [this]
    exact h4
  have h5' : e.mint_start < 256 ^ 8 := by norm_num at h5 ⊢; omega
  have h6' : e.mint_deadline < 256 ^ 8 := by norm_num at h6 ⊢; omega
  have h7' : e.max_total_supply < 256 ^ 4 := by norm_num at h7 ⊢; omega
  simp [wDeploy, rDeploy, List.append_assoc, rStr_w h1, rStr_w h2,
    rUrl_w h3, rFixed_toLE h4', rFixed_toLE h5', rFixed_toLE h6',
    rFixed_toLE h7']

/-- Decode-encode round trip for every well-formed event, with any byte
suffix. -/
theorem deserial_serial {e : ContractEvent} (h : e.wf) (r : List Nat) :
    ContractEvent.deserial (e.serial ++ r) = some (e, r) := by
  cases e with
  | Transfer ev =>
      obtain ⟨h1, h2, h3, h4⟩ := h
      simp [ContractEvent.serial, ContractEvent.deserial,
        TRANSFER_EVENT_TAG, MINT_EVENT_TAG, TOKEN_METADATA_EVENT_TAG,
        MINTED_EVENT_TAG, DEPLOY_EVENT_TAG, rTransfer_w h1 h2 h3 h4]
  | Mint ev =>
      obtain ⟨h1, h2, h3⟩ := h
      simp [ContractEvent.serial, ContractEvent.deserial,
        TRANSFER_EVENT_TAG, MINT_EVENT_TAG, TOKEN_METADATA_EVENT_TAG,
        MINTED_EVENT_TAG, DEPLOY_EVENT_TAG, rMint_w h1 h2 h3]
  | TokenMetadata ev =>
      obtain ⟨h1, h2⟩ := h
      simp [ContractEvent.serial, ContractEvent.deserial,
        TRANSFER_EVENT_TAG, MINT_EVENT_TAG, TOKEN_METADATA_EVENT_TAG,
        MINTED_EVENT_TAG, DEPLOY_EVENT_TAG, rTokenMetadata_w h1 h2]
  | Minted ev =>
      obtain ⟨h1, h2, h3, h4⟩ := h
      simp [ContractEvent.serial, ContractEvent.deserial,
        TRANSFER_EVENT_TAG, MINT_EVENT_TAG, TOKEN_METADATA_EVENT_TAG,
        MINTED_EVENT_TAG, DEPLOY_EVENT_TAG, rMinted_w h1 h2 h3 h4]
  | Deploy ev =>
      obtain ⟨h1, h2, h3, h4, h5, h6, h7⟩ := h
      simp [ContractEvent.serial, ContractEvent.deserial,
        TRANSFER_EVENT_TAG, MINT_EVENT_TAG, TOKEN_METADATA_EVENT_TAG,
        MINTED_EVENT_TAG, DEPLOY_EVENT_TAG,
        rDeploy_w h1 h2 h3 h4 h5 h6 h7]

/-- Decoding fails on every byte sequence whose leading tag byte is not one
of the five defined tags. -/
theorem deserial_unknown_tag {tag : Nat}
    (h1 : tag ≠ TRANSFER_EVENT_TAG) (h2 : tag ≠ MINT_EVENT_TAG)
    (h3 : tag ≠ TOKEN_METADATA_EVENT_TAG) (h4 : tag ≠ MINTED_EVENT_TAG)
    (h5 : tag ≠ DEPLOY_EVENT_TAG) (r : List Nat) :
    ContractEvent.deserial (tag :: r) = none := by
  simp [ContractEvent.deserial, h1, h2, h3, h4, h5]

/-! ## The mint-counter trace -/

/-- Under the `capParams` settings, a single-token mint call reduces to
`State::mint` followed by the three per-token log entries. -/
theorem mintCallOf_eq {s : State} {t : Nat}
    (hm : s.minter = 0) (hms : s.mint_start = 0) (hmd : s.mint_deadline = 1) :
    applyCall s (mintCallOf t) =
      (match State.mint s t (.account 1) "u" with
       | .error e => .error e
       | .ok (s1, c) =>
           .ok (s1, [.Mint t 1 (.account 1), .TokenMetadata t "u",
                     .Minted t c 0 "u"])) := by
  have h1 : ¬ (capCtx.sender ≠ Address.account s.minter) := by
    simp [capCtx, hm]
  have h2 : ¬ (capCtx.block_time < s.mint_start) := by simp [capCtx, hms]
  have h3 : ¬ (s.mint_deadline ≤ capCtx.block_time) := by simp [capCtx, hmd]
  show contract_mint capCtx s
    { owners := [Address.account 1], tokens := [t], token_uris := ["u"] } = _
  unfold contract_mint
  rw [if_neg h1, if_neg h2, if_neg h3]
  have hz : zip3entries
      { owners := [Address.account 1], tokens := [t], token_uris := ["u"] } =
      [((t, Address.account 1), "u")] := rfl
  rw [hz]
  simp only [mintLoop]
  cases State.mint s t (Address.account 1) "u" with
  | error e => rfl
  | ok pr =>
      obtain ⟨s1, c⟩ := pr
      rfl

/-- One successful step of the trace: minting a fresh token under
`capParams` succeeds and advances the ledger by one token. -/
theorem trace_step {s : State} {t : Nat}
    (hm : s.minter = 0) (hms : s.mint_start = 0) (hmd : s.mint_deadline = 1)
    (hmx : s.max_total_supply = 2 ^ 32 - 1) (hinv : Inv s)
    (hnew : t ∉ s.all_tokens) :
    ∃ s1 evs, applyCall s (mintCallOf t) = .ok (s1, evs) ∧
      s1.all_tokens = s.all_tokens ++ [t] ∧
      s1.counter = (s.counter + 1) % 2 ^ 32 ∧
      s1.minter = 0 ∧ s1.mint_start = 0 ∧ s1.mint_deadline = 1 ∧
      s1.max_total_supply = 2 ^ 32 - 1 := by
  have huri : ((s.token_uris t).isSome) = false := by
    rw [← Bool.not_eq_true]
    intro hC
    exact hnew ((hinv.uriIff t).mpr hC)
  have hcap : ¬ (s.max_total_supply < (s.counter + 1) % 2 ^ 32) := by
    rw [hmx]
    have : (s.counter + 1) % 2 ^ 32 < 2 ^ 32 := Nat.mod_lt _ (by norm_num)
    omega
  cases hmint : State.mint s t (Address.account 1) "u" with
  | error e =>
      exfalso
      unfold State.mint at hmint
      rw [if_neg hnew, if_neg (by simp [huri]), if_neg hcap] at hmint
      exact Except.noConfusion hmint
  | ok pr =>
      obtain ⟨s1, c⟩ := pr
      obtain ⟨-, -, hc, -, hs1⟩ := mint_ok_elim hmint
      refine ⟨s1, [.Mint t 1 (.account 1), .TokenMetadata t "u",
        .Minted t c 0 "u"], ?_, ?_, ?_, ?_, ?_, ?_, ?_⟩
      · rw [mintCallOf_eq hm hms hmd, hmint]
      · rw [hs1]
      · rw [hs1, hc]
      · rw [hs1]
        exact hm
      · rw [hs1]
        exact hms
      · rw [hs1]
        exact hmd
      · rw [hs1]
        exact hmx

/-- Shape of the trace state after `n` single-token mint calls: the ledger
holds tokens `0, …, n - 1` and the `u32` counter holds `n % 2 ^ 32`. -/
theorem traceState_spec (n : Nat) :
    (traceState n).all_tokens = List.range n ∧
    (traceState n).counter = n % 2 ^ 32 ∧
    (traceState n).minter = 0 ∧
    (traceState n).mint_start = 0 ∧
    (traceState n).mint_deadline = 1 ∧
    (traceState n).max_total_supply = 2 ^ 32 - 1 ∧
    Reachable (traceState n) := by
  induction n with
  | zero => exact ⟨rfl, rfl, rfl, rfl, rfl, rfl, Reachable.init capParams⟩
  | succ n ih =>
      obtain ⟨hall, hcnt, hm, hms, hmd, hmx, hreach⟩ := ih
      have hnew : n ∉ (traceState n).all_tokens := by
        rw [hall]
        simp
      obtain ⟨s1, evs, hcall, h1, h2, h3, h4, h5, h6⟩ :=
        trace_step hm hms hmd hmx (reachable_inv hreach) hnew
      have hstep : traceState (n + 1) = s1 := by
        show stateAfter (traceState n)
          (applyCall (traceState n) (mintCallOf n)) = s1
        rw [hcall]
        rfl
      rw [hstep]
      refine ⟨?_, ?_, h3, h4, h5, h6, Reachable.step hreach hcall⟩
      · rw [h1, hall, List.range_succ]
      · rw [h2, hcnt]
        omega

/-! ## Shared helper lemmas for the claim theorems -/

/-- The host keeps the pre-call state whenever a call is not successful. -/
theorem stateAfter_not_ok {s : State}
    {r : Except ContractError (State × List LogEvent)}
    (h : isOk r = false) : stateAfter s r = s := by
  cases r with
  | error e => rfl
  | ok v => simp [isOk] at h

/-- `State::transfer` never produces the `Unauthorized` error; that error
arises only from the caller check in `contract_transfer`. -/
theorem transfer_no_unauthorized {s : State} {token amount : Nat}
    {src dst : Address} :
    State.transfer s token amount src dst ≠ .error .Unauthorized := by
  unfold State.transfer
  split
  · simp
  · split
    · simp
    · split
      · simp
      · split
        · simp
        · simp

/-- `applyCall demoS0 demoMint` succeeds with token 2 minted to account 1. -/
theorem demoS1_step : applyCall demoS0 demoMint =
    .ok (demoS1, [.Mint 2 1 (.account 1), .TokenMetadata 2 "u2",
                  .Minted 2 1 150 "u2"]) := rfl

theorem demoS1_reachable : Reachable demoS1 :=
  Reachable.step (Reachable.init demoParams) demoS1_step

/-- `applyCall demoS1 demoAddOp` succeeds, granting account 2 operator
status for account 1. -/
theorem demoS2_step : applyCall demoS1 demoAddOp =
    .ok (demoS2, [.UpdateOperator (.account 1) (.account 2) true]) := rfl

theorem demoS2_reachable : Reachable demoS2 :=
  Reachable.step demoS1_reachable demoS2_step

/-- A mint loop whose remaining entries contain a token already registered
in the current state cannot succeed. -/
theorem mintLoop_dup {bt : Nat} {t : Nat} {o' : Address} {u' : String} :
    ∀ (entries : List ((Nat × Address) × String)) (s : State)
      (evs : List LogEvent),
      t ∈ s.all_tokens → ((t, o'), u') ∈ entries →
      isOk (mintLoop bt s evs entries) = false
  | [], _, _, _, hin => absurd hin (List.not_mem_nil _)
  | ((t0, o0), u0) :: rest, s, evs, hmem, hin => by
      simp only [mintLoop]
      cases hmint : State.mint s t0 o0 u0 with
      | error e => rfl
      | ok pr =>
          obtain ⟨s1, c⟩ := pr
          rcases List.mem_cons.mp hin with heq | hin'
          · exfalso
            have ht : t = t0 := congrArg (fun x => x.1.1) heq
            obtain ⟨h1, -, -, -, -⟩ := mint_ok_elim hmint
            exact h1 (ht ▸ hmem)
          · have hmem1 : t ∈ s1.all_tokens := by
              obtain ⟨-, -, -, -, hs⟩ := mint_ok_elim hmint
              rw [hs]
              exact List.mem_append_left _ hmem
            exact mintLoop_dup rest s1 _ hmem1 hin'

/-- A mint loop that mints `t` and later reaches another entry for `t`
cannot succeed. -/
theorem mintLoop_dup_after {bt : Nat} {t : Nat} :
    ∀ (l1 : List ((Nat × Address) × String)) (o1 : Address) (u1 : String)
      (rest : List ((Nat × Address) × String)) (s : State)
      (evs : List LogEvent),
      (∃ o2 u2, ((t, o2), u2) ∈ rest) →
      isOk (mintLoop bt s evs (l1 ++ ((t, o1), u1) :: rest)) = false
  | [], o1, u1, rest, s, evs, hdup => by
      rw [List.nil_append]
      simp only [mintLoop]
      cases hmint : State.mint s t o1 u1 with
      | error e => rfl
      | ok pr =>
          obtain ⟨s1, c⟩ := pr
          obtain ⟨o2, u2, hin⟩ := hdup
          have hmem1 : t ∈ s1.all_tokens := by
            obtain ⟨-, -, -, -, hs⟩ := mint_ok_elim hmint
            rw [hs]
            exact List.mem_append_right _ (List.mem_singleton_self t)
          exact mintLoop_dup rest s1 _ hmem1 hin
  | ((t0, o0), u0) :: l1', o1, u1, rest, s, evs, hdup => by
      rw [List.cons_append]
      simp only [mintLoop]
      cases hmint : State.mint s t0 o0 u0 with
      | error e => rfl
      | ok pr =>
          obtain ⟨s1, c⟩ := pr
          exact mintLoop_dup_after l1' o1 u1 rest s1 _ hdup

/-- A mint call whose zipped entries include an already-registered token
fails. -/
theorem mint_call_dup_not_ok {s : State} {ctx : Ctx} {p : MintParams}
    {t : Nat} (hmem : t ∈ s.all_tokens)
    (hin : ∃ o' u', ((t, o'), u') ∈ zip3entries p) :
    isOk (applyCall s (.mint ctx p)) = false := by
  obtain ⟨o', u', hin⟩ := hin
  show isOk (contract_mint ctx s p) = false
  unfold contract_mint
  split
  · rfl
  · split
    · rfl
    · split
      · rfl
      · exact mintLoop_dup _ _ _ hmem hin

/-- Adding an operator that is already enabled leaves the state unchanged. -/
theorem add_operator_mem {s : State} {owner op : Address}
    (hmem : op ∈ (s.address_state owner).operators) :
    State.add_operator s owner op = s := by
  unfold State.add_operator
  show { s with
          address_state := mapUpdate s.address_state owner
            { s.address_state owner with
                operators := (sinsert (s.address_state owner).operators op).2 } } = s
  rw [sinsert_of_mem hmem]
  show { s with
          address_state :=
            mapUpdate s.address_state owner (s.address_state owner) } = s
  rw [mapUpdate_self]

/-- Removing an operator that is not enabled leaves the state unchanged. -/
theorem remove_operator_not_mem {s : State} {owner op : Address}
    (hmem : op ∉ (s.address_state owner).operators) :
    State.remove_operator s owner op = s := by
  unfold State.remove_operator
  show { s with
          address_state := mapUpdate s.address_state owner
            { s.address_state owner with
                operators := sremove (s.address_state owner).operators op } } = s
  rw [sremove_of_not_mem hmem]
  show { s with
          address_state :=
            mapUpdate s.address_state owner (s.address_state owner) } = s
  rw [mapUpdate_self]

/-- After adding an operator it is enabled. -/
theorem add_operator_mem_after (s : State) (owner op : Address) :
    op ∈ ((State.add_operator s owner op).address_state owner).operators := by
  unfold State.add_operator
  show op ∈ (mapUpdate s.address_state owner
    { s.address_state owner with
        operators := (sinsert (s.address_state owner).operators op).2 }
    owner).operators
  rw [mapUpdate_same]
  exact mem_sinsert.mpr (Or.inr rfl)

/-- A mint loop whose entries are fresh and pairwise distinct up to the
point where the (unwrapped) counter reaches the cap fails
`MaxTotalSupplyReached` at exactly that entry, wherever it sits in the
batch. -/
theorem mintLoop_cap_trip {bt : Nat} :
    ∀ (pre : List ((Nat × Address) × String)) (s : State)
      (evs : List LogEvent) (t : Nat) (o : Address) (u : String)
      (rest : List ((Nat × Address) × String)),
      Inv s →
      s.counter + pre.length = s.max_total_supply →
      s.max_total_supply + 1 < 2 ^ 32 →
      (pre.map (fun x => x.1.1) ++ [t]).Nodup →
      (∀ x ∈ pre.map (fun x => x.1.1) ++ [t], x ∉ s.all_tokens) →
      mintLoop bt s evs (pre ++ ((t, o), u) :: rest) =
        .error (.Custom .MaxTotalSupplyReached)
  | [], s, evs, t, o, u, rest, hinv, hlen, hcap, hnd, hfresh => by
      rw [List.nil_append]
      simp only [mintLoop]
      have ht : t ∉ s.all_tokens := hfresh t (by simp)
      have huri : (s.token_uris t).isSome = false := by
        rw [← Bool.not_eq_true]
        intro hC
        exact ht ((hinv.uriIff t).mpr hC)
      have hmint : State.mint s t o u =
          .error (.Custom .MaxTotalSupplyReached) := by
        unfold State.mint
        rw [if_neg ht, if_neg (by simp [huri]), if_pos (by simp at hlen; omega)]
      rw [hmint]
  | ((t0, o0), u0) :: pre', s, evs, t, o, u, rest, hinv, hlen, hcap, hnd,
      hfresh => by
      rw [List.cons_append]
      simp only [mintLoop]
      have ht0 : t0 ∉ s.all_tokens := hfresh t0 (by simp)
      have huri : (s.token_uris t0).isSome = false := by
        rw [← Bool.not_eq_true]
        intro hC
        exact ht0 ((hinv.uriIff t0).mpr hC)
      rw [List.length_cons] at hlen
      have hnw : (s.counter + 1) % 2 ^ 32 = s.counter + 1 :=
        Nat.mod_eq_of_lt (by omega)
      have hcapok : ¬ (s.max_total_supply < (s.counter + 1) % 2 ^ 32) := by
        rw [hnw]
        omega
      have hnd' : (t0 :: (pre'.map (fun x => x.1.1) ++ [t])).Nodup := by
        simpa using hnd
      cases hmint : State.mint s t0 o0 u0 with
      | error e =>
          exfalso
          unfold State.mint at hmint
          rw [if_neg ht0, if_neg (by simp [huri]), if_neg hcapok] at hmint
          exact Except.noConfusion hmint
      | ok pr =>
          obtain ⟨s1, c⟩ := pr
          obtain ⟨-, -, hc, -, hs1⟩ := mint_ok_elim hmint
          apply mintLoop_cap_trip pre' s1 _ t o u rest (mint_inv hmint hinv)
          · show s1.counter + pre'.length = s1.max_total_supply
            rw [hs1]
            show c + pre'.length = s.max_total_supply
            rw [hc, hnw]
            omega
          · show s1.max_total_supply + 1 < 2 ^ 32
            rw [hs1]
            exact hcap
          · exact (List.nodup_cons.mp hnd').2
          · intro x hx
            rw [hs1]
            show x ∉ s.all_tokens ++ [t0]
            rw [List.mem_append, List.mem_singleton]
            push_neg
            refine ⟨hfresh x ?_, ?_⟩
            · simp only [List.map_cons, List.cons_append, List.mem_cons]
              exact Or.inr hx
            · intro hx0
              exact (List.nodup_cons.mp hnd').1 (hx0 ▸ hx)

/-! ## Claim theorems -/

/-- C3: for every entrypoint (mint, transfer, updateOperator, setMinter,
setImplementors) and every input and starting state on which it returns an
error, the state after the call equals the state before the call — the
host's transactional rollback, which the batch-mint and supply-cap
failure paths inherit. -/
theorem c3_error_rollback (s : State) (c : Call)
    (h : isOk (applyCall s c) = false) :
    stateAfter s (applyCall s c) = s :=
  stateAfter_not_ok h

theorem c3_error_rollback_witness :
    stateAfter demoS1 (applyCall demoS1
      (.mint demoCtx { owners := [.account 1, .account 1], tokens := [5, 2],
                       token_uris := ["a", "b"] })) = demoS1 ∧
    stateAfter demoS0 (applyCall demoS0
      (.setMinter { sender := .account 9, owner := 0, block_time := 150 } 7)) =
      demoS0 := by
  constructor
  · exact c3_error_rollback demoS1
      (.mint demoCtx { owners := [.account 1, .account 1], tokens := [5, 2],
                       token_uris := ["a", "b"] }) (by decide)
  · exact c3_error_rollback demoS0
      (.setMinter { sender := .account 9, owner := 0, block_time := 150 } 7)
      (by decide)

/-- C10: within a transfer entry the caller-authorization check runs first
and the token-existence check runs before the zero-amount early return, so
an authorized zero-amount transfer of a nonexistent token fails
`InvalidTokenId` and an unauthorized entry fails `Unauthorized` regardless
of amount and token existence. -/
theorem c10_transfer_check_order (sender : Address) (hook : HookOracle)
    (s : State) (evs : List LogEvent) (e : TransferEntry) :
    ((e.src = sender ∨ State.is_operator s sender e.src = true) →
       e.token_id ∉ s.all_tokens →
       processTransfer sender hook s evs e = .error .InvalidTokenId) ∧
    (¬(e.src = sender ∨ State.is_operator s sender e.src = true) →
       processTransfer sender hook s evs e = .error .Unauthorized) := by
  constructor
  · intro hauth htok
    unfold processTransfer
    rw [if_neg (not_not_intro hauth)]
    have htr : State.transfer s e.token_id e.amount e.src e.dst.address =
        .error .InvalidTokenId := by
      unfold State.transfer
      rw [if_pos htok]
    rw [htr]
  · intro hna
    unfold processTransfer
    rw [if_pos hna]

theorem c10_transfer_check_order_witness :
    processTransfer (.account 1) (fun _ => true) demoS1 []
        { token_id := 99, amount := 0, src := .account 1, dst := .account 3,
          data := [] } = .error .InvalidTokenId ∧
    processTransfer (.account 9) (fun _ => true) demoS1 []
        { token_id := 99, amount := 0, src := .account 1, dst := .account 3,
          data := [] } = .error .Unauthorized := by
  constructor
  · exact (c10_transfer_check_order (.account 1) (fun _ => true) demoS1 []
      { token_id := 99, amount := 0, src := .account 1, dst := .account 3,
        data := [] }).1 (Or.inl rfl) (by decide)
  · exact (c10_transfer_check_order (.account 9) (fun _ => true) demoS1 []
      { token_id := 99, amount := 0, src := .account 1, dst := .account 3,
        data := [] }).2 (by decide)

/-- C7: a transfer entry fails `Unauthorized` exactly when the caller is
neither the `from` address nor one of its enabled operators, failure leaves
the state unchanged, and a granted operator's transfer of an owned,
existing token succeeds and hands the token to the receiver. -/
theorem c7_transfer_authorization (sender : Address) (hook : HookOracle)
    (s : State) (evs : List LogEvent) (e : TransferEntry) :
    (processTransfer sender hook s evs e = .error .Unauthorized ↔
       ¬(e.src = sender ∨ State.is_operator s sender e.src = true)) ∧
    (¬(e.src = sender ∨ State.is_operator s sender e.src = true) →
       stateAfter s (processTransfer sender hook s evs e) = s) ∧
    (State.is_operator s sender e.src = true →
       e.token_id ∈ s.all_tokens →
       e.token_id ∈ (s.address_state e.src).owned_tokens →
       e.amount = 1 →
       (∀ i si ep, e.dst = Receiver.contract i si ep → hook e = true) →
       processTransfer sender hook s evs e =
         .ok (transferResult s e.token_id e.src e.dst.address,
              evs ++ [.Transfer e.token_id e.amount e.src e.dst.address]) ∧
       e.token_id ∈ ((transferResult s e.token_id e.src
         e.dst.address).address_state e.dst.address).owned_tokens) := by
  refine ⟨⟨?_, ?_⟩, ?_, ?_⟩
  · intro hres
    by_cases hauth : (e.src = sender ∨ State.is_operator s sender e.src = true)
    · exfalso
      unfold processTransfer at hres
      rw [if_neg (not_not_intro hauth)] at hres
      split at hres
      · rename_i er htr
        exact transfer_no_unauthorized ((Except.error.inj hres) ▸ htr)
      · rename_i s1 htr
        split at hres
        · exact Except.noConfusion hres
        · split at hres
          · exact Except.noConfusion hres
          · exact ContractError.noConfusion (Except.error.inj hres)
    · exact hauth
  · intro hna
    unfold processTransfer
    rw [if_pos hna]
  · intro hna
    unfold processTransfer
    rw [if_pos hna]
    rfl
  · intro hop htok howned hamt hhook
    have htr : State.transfer s e.token_id e.amount e.src e.dst.address =
        .ok (transferResult s e.token_id e.src e.dst.address) := by
      unfold State.transfer
      rw [if_neg (not_not_intro htok), if_neg (by simp [hamt]),
        if_neg (by simp [hamt]), if_neg (not_not_intro howned)]
    constructor
    · unfold processTransfer
      rw [if_neg (not_not_intro (Or.inr hop)), htr]
      cases hdst : e.dst with
      | account a => rfl
      | contract i si ep =>
          simp [hhook i si ep hdst]
    · exact (transferResult_mem e.dst.address e.token_id).mpr
        (Or.inl ⟨rfl, Or.inl rfl⟩)

theorem c7_transfer_authorization_witness :
    (processTransfer (.account 9) (fun _ => true) demoS2 []
        { token_id := 2, amount := 1, src := .account 1, dst := .account 3,
          data := [] } = .error .Unauthorized ↔
       ¬((Address.account 1 = .account 9) ∨
          State.is_operator demoS2 (.account 9) (.account 1) = true)) ∧
    processTransfer (.account 2) (fun _ => true) demoS2 []
        { token_id := 2, amount := 1, src := .account 1, dst := .account 3,
          data := [] } =
      .ok (transferResult demoS2 2 (.account 1) (.account 3),
           [.Transfer 2 1 (.account 1) (.account 3)]) ∧
    2 ∈ ((transferResult demoS2 2 (.account 1)
           (.account 3)).address_state (.account 3)).owned_tokens := by
  refine ⟨?_, ?_, ?_⟩
  · exact (c7_transfer_authorization (.account 9) (fun _ => true) demoS2 []
      { token_id := 2, amount := 1, src := .account 1, dst := .account 3,
        data := [] }).1
  · exact ((c7_transfer_authorization (.account 2) (fun _ => true) demoS2 []
      { token_id := 2, amount := 1, src := .account 1, dst := .account 3,
        data := [] }).2.2 (by decide) (by decide) (by decide) rfl
      (by intro i si ep h; exact Receiver.noConfusion h)).1
  · exact ((c7_transfer_authorization (.account 2) (fun _ => true) demoS2 []
      { token_id := 2, amount := 1, src := .account 1, dst := .account 3,
        data := [] }).2.2 (by decide) (by decide) (by decide) rfl
      (by intro i si ep h; exact Receiver.noConfusion h)).2

/-- C2 (counterexample): processing a zero-amount transfer of an existing,
owned token by its owner performs no state change but does append a
`Transfer` event, so "logs nothing" is false on the code. -/
theorem c2_zero_transfer_logs_event_cex :
    processTransfer (.account 1) (fun _ => true) demoS1 []
        { token_id := 2, amount := 0, src := .account 1, dst := .account 3,
          data := [] } =
      .ok (demoS1, [.Transfer 2 0 (.account 1) (.account 3)]) ∧
    [LogEvent.Transfer 2 0 (.account 1) (.account 3)] ≠ ([] : List LogEvent) := by
  exact ⟨rfl, by simp⟩

/-- C2 (amended): a zero-amount transfer entry on an existing token by an
authorized caller passes validation, performs no state change, but still
appends exactly one `Transfer` event (with amount 0) for the entry. -/
theorem c2_zero_transfer_noop_but_logged (sender : Address)
    (hook : HookOracle) (s : State) (evs : List LogEvent) (e : TransferEntry)
    (h0 : e.amount = 0) (hex : e.token_id ∈ s.all_tokens)
    (hauth : e.src = sender ∨ State.is_operator s sender e.src = true)
    (hhook : ∀ i si ep, e.dst = Receiver.contract i si ep → hook e = true) :
    processTransfer sender hook s evs e =
      .ok (s, evs ++ [.Transfer e.token_id e.amount e.src e.dst.address]) := by
  have htr : State.transfer s e.token_id e.amount e.src e.dst.address =
      .ok s := by
    unfold State.transfer
    rw [if_neg (not_not_intro hex), if_pos h0]
  unfold processTransfer
  rw [if_neg (not_not_intro hauth), htr]
  cases hdst : e.dst with
  | account a => rfl
  | contract i si ep =>
      simp [hhook i si ep hdst]

theorem c2_zero_transfer_noop_but_logged_witness :
    processTransfer (.account 1) (fun _ => true) demoS1 []
        { token_id := 2, amount := 0, src := .account 1, dst := .account 3,
          data := [] } =
      .ok (demoS1, [.Transfer 2 0 (.account 1) (.account 3)]) := by
  exact c2_zero_transfer_noop_but_logged (.account 1) (fun _ => true) demoS1 []
    { token_id := 2, amount := 0, src := .account 1, dst := .account 3,
      data := [] } rfl (by decide) (Or.inl rfl)
    (by intro i si ep h; exact Receiver.noConfusion h)

/-- C8: operator updates are idempotent — adding an enabled operator or
removing an absent one succeeds, leaves the operator set exactly as a single
add (resp. remove) leaves it, and still logs an `UpdateOperator` event for
the attempted change; the whole `updateOperator` entrypoint never fails. -/
theorem c8_operator_update_idempotent (ctx : Ctx) (s : State)
    (evs : List LogEvent) (op : Address) (us : List UpdateOperatorEntry) :
    isOk (contract_update_operator ctx s us) = true ∧
    (op ∈ (s.address_state ctx.sender).operators →
       processOperatorUpdate ctx.sender (s, evs)
           { update := .Add, operator := op } =
         (s, evs ++ [.UpdateOperator ctx.sender op true])) ∧
    (op ∉ (s.address_state ctx.sender).operators →
       processOperatorUpdate ctx.sender (s, evs)
           { update := .Remove, operator := op } =
         (s, evs ++ [.UpdateOperator ctx.sender op false])) ∧
    (processOperatorUpdate ctx.sender
        (processOperatorUpdate ctx.sender (s, evs)
          { update := .Add, operator := op })
        { update := .Add, operator := op } =
      ((processOperatorUpdate ctx.sender (s, evs)
          { update := .Add, operator := op }).1,
       (processOperatorUpdate ctx.sender (s, evs)
          { update := .Add, operator := op }).2 ++
         [.UpdateOperator ctx.sender op true])) := by
  refine ⟨rfl, ?_, ?_, ?_⟩
  · intro hmem
    show (State.add_operator s ctx.sender op,
      evs ++ [.UpdateOperator ctx.sender op true]) = _
    rw [add_operator_mem hmem]
  · intro hmem
    show (State.remove_operator s ctx.sender op,
      evs ++ [.UpdateOperator ctx.sender op false]) = _
    rw [remove_operator_not_mem hmem]
  · show (State.add_operator (State.add_operator s ctx.sender op) ctx.sender op,
      (evs ++ [.UpdateOperator ctx.sender op true]) ++
        [.UpdateOperator ctx.sender op true]) = _
    rw [add_operator_mem (add_operator_mem_after s ctx.sender op)]
    rfl

theorem c8_operator_update_idempotent_witness :
    processOperatorUpdate (Address.account 1) (demoS2, [])
        { update := .Add, operator := .account 2 } =
      (demoS2, [.UpdateOperator (.account 1) (.account 2) true]) ∧
    processOperatorUpdate (Address.account 1) (demoS2, [])
        { update := .Remove, operator := .account 9 } =
      (demoS2, [.UpdateOperator (.account 1) (.account 9) false]) := by
  constructor
  · exact (c8_operator_update_idempotent
      { sender := .account 1, owner := 0, block_time := 200 } demoS2 []
      (.account 2) []).2.1 (by decide)
  · exact (c8_operator_update_idempotent
      { sender := .account 1, owner := 0, block_time := 200 } demoS2 []
      (.account 9) []).2.2.1 (by decide)

/-- C1: `contract_mint` performs no array-length check — the `zip` chain
silently truncates to the shortest of the three sequences.  On the exact
parameters of the repository's own
`test_mint_should_fail_when_arrays_not_equal` test (2 owners, 3 tokens,
3 URIs) the call succeeds and mints the two zip-truncated tokens instead of
failing `ArraysNotSameLength`. -/
theorem c1_mint_length_mismatch_divergence :
    isOk (applyCall demoS0 (.mint demoCtx c1Params)) = true ∧
    (stateAfter demoS0 (applyCall demoS0 (.mint demoCtx c1Params))).all_tokens
      = [2, 20] ∧
    (stateAfter demoS0 (applyCall demoS0 (.mint demoCtx c1Params))).counter
      = 2 := by
  exact ⟨rfl, rfl, rfl⟩

/-- C4 (counterexample): the `u32` mint counter wraps.  After `2 ^ 32`
successful single-token mint calls under a cap of `2 ^ 32 - 1`, a reachable
state exists whose counter is 0 while `all_tokens` has `2 ^ 32` entries —
and its predecessor sits exactly at the cap, yet the mint that "would make
the counter exceed `max_total_supply`" succeeds instead of failing
`MaxTotalSupplyReached`. -/
theorem c4_counter_wrap_cex :
    Reachable (traceState (2 ^ 32)) ∧
    (traceState (2 ^ 32)).counter = 0 ∧
    (traceState (2 ^ 32)).all_tokens.length = 2 ^ 32 ∧
    (traceState (2 ^ 32)).counter ≠ (traceState (2 ^ 32)).all_tokens.length ∧
    (traceState (2 ^ 32 - 1)).counter =
      (traceState (2 ^ 32 - 1)).max_total_supply ∧
    isOk (applyCall (traceState (2 ^ 32 - 1))
      (mintCallOf (2 ^ 32 - 1))) = true := by
  obtain ⟨hallN, hcntN, -, -, -, -, hreachN⟩ := traceState_spec (2 ^ 32)
  obtain ⟨hall, hcnt, hm, hms, hmd, hmx, hreach⟩ := traceState_spec (2 ^ 32 - 1)
  have hcnt0 : (traceState (2 ^ 32)).counter = 0 := by
    rw [hcntN, Nat.mod_self]
  have hlen : (traceState (2 ^ 32)).all_tokens.length = 2 ^ 32 := by
    rw [hallN, List.length_range]
  refine ⟨hreachN, hcnt0, hlen, ?_, ?_, ?_⟩
  · rw [hcnt0, hlen]
    norm_num
  · rw [hcnt, hmx]
    omega
  · obtain ⟨s1, evs, hcall, -⟩ := @trace_step (traceState (2 ^ 32 - 1))
      (2 ^ 32 - 1) hm hms hmd hmx (reachable_inv hreach) (by rw [hall]; simp)
    rw [hcall]
    rfl

/-- C4 (amended): in every reachable state the mint counter equals the size
of `all_tokens` modulo `2 ^ 32` (equal outright while fewer than `2 ^ 32`
tokens exist) and never exceeds `max_total_supply`; and a mint call by the
minter inside the window whose fresh, pairwise-distinct entries reach the
cap at any position of the batch — the entry that would make the counter
exceed `max_total_supply`, with `max_total_supply + 1 < 2 ^ 32` so the
`u32` counter does not wrap — fails `MaxTotalSupplyReached` and mints none
of that call's tokens. -/
theorem c4_mint_counter_invariant (s : State) (hreach : Reachable s) :
    s.counter = s.all_tokens.length % 2 ^ 32 ∧
    s.counter ≤ s.max_total_supply ∧
    (s.all_tokens.length < 2 ^ 32 → s.counter = s.all_tokens.length) ∧
    (∀ ctx p pre t o u rest,
       ctx.sender = Address.account s.minter →
       s.mint_start ≤ ctx.block_time → ctx.block_time < s.mint_deadline →
       zip3entries p = pre ++ ((t, o), u) :: rest →
       s.counter + pre.length = s.max_total_supply →
       s.max_total_supply + 1 < 2 ^ 32 →
       (pre.map (fun x => x.1.1) ++ [t]).Nodup →
       (∀ x ∈ pre.map (fun x => x.1.1) ++ [t], x ∉ s.all_tokens) →
       applyCall s (.mint ctx p) = .error (.Custom .MaxTotalSupplyReached) ∧
       stateAfter s (applyCall s (.mint ctx p)) = s) := by
  have hinv := reachable_inv hreach
  refine ⟨hinv.counterEq, hinv.counterLe, ?_, ?_⟩
  · intro hlt
    rw [hinv.counterEq, Nat.mod_eq_of_lt hlt]
  · intro ctx p pre t o u rest hs hms hmd hz hlen hcap hnd hfresh
    have hcall : applyCall s (.mint ctx p) =
        .error (.Custom .MaxTotalSupplyReached) := by
      show contract_mint ctx s p = _
      unfold contract_mint
      rw [if_neg (by simp [hs]), if_neg (by omega), if_neg (by omega), hz]
      exact mintLoop_cap_trip pre s [] t o u rest hinv hlen hcap hnd hfresh
    exact ⟨hcall, by rw [hcall]; rfl⟩

theorem c4_mint_counter_invariant_witness :
    (demoS1.counter = demoS1.all_tokens.length % 2 ^ 32 ∧
     demoS1.counter ≤ demoS1.max_total_supply) ∧
    applyCall (State.init zeroCapParams)
        (.mint { sender := .account 0, owner := 0, block_time := 5 }
          { owners := [.account 1], tokens := [3], token_uris := ["u"] }) =
      .error (.Custom .MaxTotalSupplyReached) ∧
    applyCall (State.init oneCapParams)
        (.mint { sender := .account 0, owner := 0, block_time := 5 }
          { owners := [.account 1, .account 1], tokens := [3, 4],
            token_uris := ["a", "b"] }) =
      .error (.Custom .MaxTotalSupplyReached) := by
  refine ⟨?_, ?_, ?_⟩
  · exact ⟨(c4_mint_counter_invariant demoS1 demoS1_reachable).1,
      (c4_mint_counter_invariant demoS1 demoS1_reachable).2.1⟩
  · exact ((c4_mint_counter_invariant (State.init zeroCapParams)
      (Reachable.init zeroCapParams)).2.2.2
      { sender := .account 0, owner := 0, block_time := 5 }
      { owners := [.account 1], tokens := [3], token_uris := ["u"] }
      [] 3 (.account 1) "u" [] rfl (by decide) (by decide) rfl (by decide)
      (by decide) (by decide) (by decide)).1
  · exact ((c4_mint_counter_invariant (State.init oneCapParams)
      (Reachable.init oneCapParams)).2.2.2
      { sender := .account 0, owner := 0, block_time := 5 }
      { owners := [.account 1, .account 1], tokens := [3, 4],
        token_uris := ["a", "b"] }
      [((3, .account 1), "a")] 4 (.account 1) "b" [] rfl (by decide)
      (by decide) rfl (by decide) (by decide) (by decide) (by decide)).1

/-- C5: in every reachable state a token id is registered in `all_tokens`
iff it has a token URI and a mint-sequence entry, iff exactly one address's
`owned_tokens` contains it. -/
theorem c5_token_ledger_coherence (s : State) (hreach : Reachable s)
    (t : Nat) :
    (t ∈ s.all_tokens ↔
       ((s.token_uris t).isSome ∧ (s.mint_count t).isSome)) ∧
    (t ∈ s.all_tokens ↔ ∃! a, t ∈ (s.address_state a).owned_tokens) := by
  have hinv := reachable_inv hreach
  refine ⟨⟨?_, ?_⟩, ⟨hinv.uniqueOwner t, ?_⟩⟩
  · intro h
    exact ⟨(hinv.uriIff t).mp h, (hinv.mintCountIff t).mp h⟩
  · intro h
    exact (hinv.uriIff t).mpr h.1
  · rintro ⟨a, ha, -⟩
    exact hinv.ownedSub a t ha

theorem c5_token_ledger_coherence_witness :
    (2 ∈ demoS1.all_tokens ↔
       ((demoS1.token_uris 2).isSome ∧ (demoS1.mint_count 2).isSome)) ∧
    (2 ∈ demoS1.all_tokens ↔
       ∃! a, 2 ∈ (demoS1.address_state a).owned_tokens) :=
  c5_token_ledger_coherence demoS1 demoS1_reachable 2

/-- C6: minting a token id that is already registered fails
`TokenIdAlreadyExists` (the `DuplicateToken` error) at the `State::mint`
level; a mint call whose entries repeat a registered token — or repeat a
token within the same call — fails as a whole and leaves the ledger
unchanged. -/
theorem c6_duplicate_mint_rejected (s : State) (t : Nat) (o : Address)
    (u : String) (ctx : Ctx) (p : MintParams) :
    (t ∈ s.all_tokens →
       State.mint s t o u = .error (.Custom .TokenIdAlreadyExists)) ∧
    (t ∈ s.all_tokens → (∃ o' u', ((t, o'), u') ∈ zip3entries p) →
       isOk (applyCall s (.mint ctx p)) = false ∧
       stateAfter s (applyCall s (.mint ctx p)) = s) ∧
    (∀ l1 o1 u1 rest, zip3entries p = l1 ++ ((t, o1), u1) :: rest →
       (∃ o2 u2, ((t, o2), u2) ∈ rest) →
       isOk (applyCall s (.mint ctx p)) = false ∧
       stateAfter s (applyCall s (.mint ctx p)) = s) := by
  refine ⟨?_, ?_, ?_⟩
  · intro hmem
    unfold State.mint
    rw [if_pos hmem]
  · intro hmem hin
    have hok := @mint_call_dup_not_ok s ctx p t hmem hin
    exact ⟨hok, stateAfter_not_ok hok⟩
  · intro l1 o1 u1 rest hz hdup
    have hok : isOk (applyCall s (.mint ctx p)) = false := by
      show isOk (contract_mint ctx s p) = false
      unfold contract_mint
      split
      · rfl
      · split
        · rfl
        · split
          · rfl
          · rw [hz]
            exact mintLoop_dup_after l1 o1 u1 rest s [] hdup
    exact ⟨hok, stateAfter_not_ok hok⟩

theorem c6_duplicate_mint_rejected_witness :
    State.mint demoS1 2 (.account 1) "x" =
      .error (.Custom .TokenIdAlreadyExists) ∧
    isOk (applyCall demoS1 (.mint demoCtx
      { owners := [.account 1], tokens := [2], token_uris := ["y"] })) =
      false ∧
    isOk (applyCall demoS0 (.mint demoCtx
      { owners := [.account 1, .account 1], tokens := [7, 7],
        token_uris := ["a", "b"] })) = false := by
  refine ⟨?_, ?_, ?_⟩
  · exact (c6_duplicate_mint_rejected demoS1 2 (.account 1) "x" demoCtx
      { owners := [.account 1], tokens := [2], token_uris := ["y"] }).1
      (by decide)
  · exact ((c6_duplicate_mint_rejected demoS1 2 (.account 1) "y" demoCtx
      { owners := [.account 1], tokens := [2], token_uris := ["y"] }).2.1
      (by decide) ⟨.account 1, "y", by decide⟩).1
  · exact ((c6_duplicate_mint_rejected demoS0 7 (.account 1) "a" demoCtx
      { owners := [.account 1, .account 1], tokens := [7, 7],
        token_uris := ["a", "b"] }).2.2 [] (.account 1) "a"
      [((7, .account 1), "b")] rfl ⟨.account 1, "b", by decide⟩).1

/-- C9 (counterexample): `ContractEvent` has no `UpdateOperator` variant —
decoding a well-formed CIS-2 `UpdateOperatorEvent` encoding (leading tag
byte 252) fails, refuting the claim's six-variant tag set. -/
theorem c9_update_operator_tag_cex :
    ContractEvent.deserial updateOperatorBytes = none ∧
    updateOperatorBytes.head? = some UPDATE_OPERATOR_EVENT_TAG := by
  exact ⟨rfl, rfl⟩

/-- C9 (amended): the tagged variant set of `ContractEvent` is
{Transfer, Mint, TokenMetadata, Minted, Deploy}; encoding any well-formed
event of those variants and decoding the bytes reproduces an equal event
(with any suffix preserved), and decoding any byte sequence whose leading
tag byte is not one of the five defined tags fails.  `UpdateOperator`
events are emitted through the library's `Cis2Event` encoding instead. -/
theorem c9_event_codec_roundtrip :
    (∀ (e : ContractEvent) (r : List Nat), e.wf →
       ContractEvent.deserial (e.serial ++ r) = some (e, r)) ∧
    (∀ (e : ContractEvent), e.wf →
       ContractEvent.deserial e.serial = some (e, [])) ∧
    (∀ (tag : Nat) (r : List Nat),
       tag ≠ TRANSFER_EVENT_TAG → tag ≠ MINT_EVENT_TAG →
       tag ≠ TOKEN_METADATA_EVENT_TAG → tag ≠ MINTED_EVENT_TAG →
       tag ≠ DEPLOY_EVENT_TAG →
       ContractEvent.deserial (tag :: r) = none) := by
  refine ⟨fun e r h => deserial_serial h r, fun e h => ?_,
    fun tag r h1 h2 h3 h4 h5 => deserial_unknown_tag h1 h2 h3 h4 h5 r⟩
  have := deserial_serial h []
  simpa using this

theorem c9_event_codec_roundtrip_witness :
    ContractEvent.deserial
        (ContractEvent.serial
          (.Mint { token_id := 2, amount := 1, owner := .account 5 })) =
      some (.Mint { token_id := 2, amount := 1, owner := .account 5 }, []) ∧
    ContractEvent.deserial (77 :: [1, 2, 3]) = none := by
  constructor
  · exact c9_event_codec_roundtrip.2.1
      (.Mint { token_id := 2, amount := 1, owner := .account 5 })
      (show (2 : Nat) < 2 ^ 32 ∧ (1 : Nat) < 2 ^ 8 ∧
          wfAddress (.account 5) from
        ⟨by norm_num, by norm_num, by norm_num [wfAddress]⟩)
  · exact c9_event_codec_roundtrip.2.2 77 [1, 2, 3] (by decide) (by decide)
      (by decide) (by decide) (by decide)

end NFT
